import Mathlib

/-!
Verification development for the crypto-liquidity-trader repository.

The Python sources are shallowly embedded: prices and other float-valued
quantities are modelled as rationals (`ℚ`), timestamps as integers (`ℤ`),
pandas DataFrames of OHLCV rows as `List Candle`, and Python dicts as Lean
structures.  Python's stable `list.sort` / `sorted` is modelled with
`List.insertionSort` using a reflexive total relation, which is extensionally
the same stable sort.  Fallible code paths are modelled with `Option`.
-/

-- Batteries marks the `Rat` field operations `@[irreducible]`, which blocks
-- `decide` on concrete rational arithmetic.  Restoring the default
-- reducibility is elaboration-only and does not affect kernel checking.
set_option allowUnsafeReducibility true
attribute [local semireducible] Rat.add Rat.sub Rat.mul Rat.div Rat.neg Rat.inv

namespace CryptoTrader

/-- One OHLCV row (a pandas DataFrame row with columns
timestamp/open/high/low/close/volume). -/
structure Candle where
  timestamp : ℤ
  open_ : ℚ
  high : ℚ
  low : ℚ
  close : ℚ
  volume : ℚ
deriving DecidableEq, Repr

/-- Placeholder row used for always-in-bounds list indexing. -/
def dummyCandle : Candle := ⟨0, 0, 0, 0, 0, 0⟩

/-! ## src/patterns/base.py and src/patterns/fair_value_gap.py -/

/-- A detected pattern dict, as built by `FairValueGap._detect_bullish_fvg` /
`_detect_bearish_fvg` (fair_value_gap.py lines 103-114 and 151-162).  Every
pattern this program constructs carries a `confidence_score`, so the field is
modelled as always present. -/
structure Pattern where
  pattern_type : String
  direction : String
  start_timestamp : ℤ
  end_timestamp : ℤ
  price_high : ℚ
  price_low : ℚ
  gap_size : ℚ
  gap_percentage : ℚ
  confidence_score : ℚ
  is_filled : Bool
deriving DecidableEq, Repr

/-- `BasePattern._patterns_overlap` (base.py lines 119-136):
`not (end1 < start2 or end2 < start1)`. -/
def patterns_overlap (p1 p2 : Pattern) : Bool :=
  !(decide (p1.end_timestamp < p2.start_timestamp) ||
    decide (p2.end_timestamp < p1.start_timestamp))

/-- Sort relation for `patterns.sort(key=lambda p: p.get("confidence_score",
p.get("gap_size", 0)), reverse=True)` (base.py lines 100-103).  Since every
pattern built by this program has a `confidence_score`, the key is the
confidence score; `reverse=True` on Python's stable sort keeps equal keys in
input order, which is what `List.insertionSort` with this reflexive relation
does. -/
def confDesc (p q : Pattern) : Prop := q.confidence_score ≤ p.confidence_score

instance : DecidableRel confDesc := fun p q =>
  inferInstanceAs (Decidable (q.confidence_score ≤ p.confidence_score))

instance : IsTotal Pattern confDesc :=
  ⟨fun p q => le_total q.confidence_score p.confidence_score⟩

instance : IsTrans Pattern confDesc :=
  ⟨fun _ _ _ h1 h2 => le_trans h2 h1⟩

/-- Loop body of `filter_overlapping_patterns` (base.py lines 106-115): append
`pattern` unless it overlaps an already-kept pattern. -/
def keep_step (filtered : List Pattern) (pattern : Pattern) : List Pattern :=
  if filtered.any (fun existing => patterns_overlap pattern existing) then
    filtered
  else
    filtered ++ [pattern]

/-- `BasePattern.filter_overlapping_patterns` (base.py lines 86-117): sort by
descending confidence, then greedily keep each pattern that overlaps no
already-kept pattern.  (The source's early return for an empty input list
produces `[]`, which the fold does as well.) -/
def filter_overlapping_patterns (patterns : List Pattern) : List Pattern :=
  (patterns.insertionSort confDesc).foldl keep_step []

/-- Configuration of the `FairValueGap` detector (fair_value_gap.py lines
26-28). -/
structure FVGConfig where
  min_gap_percentage : ℚ
  lookback_candles : ℕ
deriving DecidableEq, Repr

/-- Defaults `min_gap_percentage = 0.1`, `lookback_candles = 100`. -/
def defaultFVGConfig : FVGConfig := ⟨1 / 10, 100⟩

/-- `FairValueGap.calculate_confidence` (fair_value_gap.py lines 168-194). -/
def calculate_confidence (gap_percentage impulse_strength : ℚ) : ℚ :=
  let confidence : ℚ := 1 / 2
  let confidence := if 1 / 2 < gap_percentage then confidence + 2 / 10 else confidence
  let confidence := if 1 < gap_percentage then confidence + 1 / 10 else confidence
  let confidence := if 7 / 10 < impulse_strength then confidence + 1 / 10 else confidence
  let confidence := if 9 / 10 < impulse_strength then confidence + 1 / 10 else confidence
  min confidence 1

/-- `FairValueGap._detect_bullish_fvg` (fair_value_gap.py lines 72-118).
When `candle_1` has zero range, the source computes `0.0/0.0 = nan` (numpy)
and `nan > 0.5` is false; in `ℚ`, `0 / 0 = 0` and `0 > 1/2` is false, the same
outcome. -/
def detect_bullish_fvg (cfg : FVGConfig) (candle_0 candle_1 candle_2 : Candle) :
    Option Pattern :=
  let gap_bottom := candle_0.high
  let gap_top := candle_2.low
  if gap_bottom < gap_top then
    let gap_size := gap_top - gap_bottom
    let gap_percentage := gap_size / candle_1.close * 100
    if cfg.min_gap_percentage ≤ gap_percentage then
      let body_size := |candle_1.close - candle_1.open_|
      let range := candle_1.high - candle_1.low
      if candle_1.open_ < candle_1.close ∧ (1 : ℚ) / 2 < body_size / range then
        some
          { pattern_type := "fair_value_gap"
            direction := "bullish"
            start_timestamp := candle_0.timestamp
            end_timestamp := candle_2.timestamp
            price_high := gap_top
            price_low := gap_bottom
            gap_size := gap_size
            gap_percentage := gap_percentage
            confidence_score := calculate_confidence gap_percentage (body_size / range)
            is_filled := false }
      else none
    else none
  else none

/-- `FairValueGap._detect_bearish_fvg` (fair_value_gap.py lines 120-166). -/
def detect_bearish_fvg (cfg : FVGConfig) (candle_0 candle_1 candle_2 : Candle) :
    Option Pattern :=
  let gap_top := candle_0.low
  let gap_bottom := candle_2.high
  if gap_bottom < gap_top then
    let gap_size := gap_top - gap_bottom
    let gap_percentage := gap_size / candle_1.close * 100
    if cfg.min_gap_percentage ≤ gap_percentage then
      let body_size := |candle_1.close - candle_1.open_|
      let range := candle_1.high - candle_1.low
      if candle_1.close < candle_1.open_ ∧ (1 : ℚ) / 2 < body_size / range then
        some
          { pattern_type := "fair_value_gap"
            direction := "bearish"
            start_timestamp := candle_0.timestamp
            end_timestamp := candle_2.timestamp
            price_high := gap_top
            price_low := gap_bottom
            gap_size := gap_size
            gap_percentage := gap_percentage
            confidence_score := calculate_confidence gap_percentage (body_size / range)
            is_filled := false }
      else none
    else none
  else none

/-- Sort relation used by `prepare_dataframe`: ascending candle timestamp. -/
def tsLe (a b : Candle) : Prop := a.timestamp ≤ b.timestamp

instance : DecidableRel tsLe := fun a b =>
  inferInstanceAs (Decidable (a.timestamp ≤ b.timestamp))

instance : IsTotal Candle tsLe := ⟨fun a b => le_total a.timestamp b.timestamp⟩

instance : IsTrans Candle tsLe := ⟨fun _ _ _ => le_trans⟩

/-- `BasePattern.prepare_dataframe` (base.py lines 37-58): sort the rows by
timestamp.  On inputs with distinct timestamps (the documented data model)
every sort agrees with this one. -/
def prepare_dataframe (df : List Candle) : List Candle :=
  df.insertionSort tsLe

/-- `FairValueGap.detect` (fair_value_gap.py lines 30-70): scan three-candle
windows of the trailing `lookback_candles` rows, collecting a bullish then a
bearish candidate per window, then resolve overlaps. -/
def detect (cfg : FVGConfig) (df0 : List Candle) : List Pattern :=
  let df := prepare_dataframe df0
  if df.length < 3 then []
  else
    let start_idx := df.length - cfg.lookback_candles
    let idxs := (List.range (df.length - 2)).filter (fun i => start_idx ≤ i)
    let patterns := idxs.flatMap (fun i =>
      let c0 := df.getD i dummyCandle
      let c1 := df.getD (i + 1) dummyCandle
      let c2 := df.getD (i + 2) dummyCandle
      (detect_bullish_fvg cfg c0 c1 c2).toList ++
        (detect_bearish_fvg cfg c0 c1 c2).toList)
    filter_overlapping_patterns patterns

/-- Placeholder pattern for always-in-bounds list indexing. -/
def dummyPattern : Pattern :=
  ⟨"", "", 0, 0, 0, 0, 0, 0, 0, false⟩

/-- Spec-side notion of interval intersection, from the spec's words:
"intervals intersect unless one ends strictly before the other starts". -/
def claimed_overlap (p q : Pattern) : Prop :=
  ¬(p.end_timestamp < q.start_timestamp ∨ q.end_timestamp < p.start_timestamp)

instance (p q : Pattern) : Decidable (claimed_overlap p q) :=
  inferInstanceAs
    (Decidable
      (¬(p.end_timestamp < q.start_timestamp ∨ q.end_timestamp < p.start_timestamp)))

/-- Spec-side sort order claimed by C6: descending `confidence_score`,
ties broken by descending `gap_size`. -/
def lexConfGapDesc (p q : Pattern) : Prop :=
  q.confidence_score < p.confidence_score ∨
    (q.confidence_score = p.confidence_score ∧ q.gap_size ≤ p.gap_size)

instance : DecidableRel lexConfGapDesc := fun p q =>
  inferInstanceAs
    (Decidable
      (q.confidence_score < p.confidence_score ∨
        (q.confidence_score = p.confidence_score ∧ q.gap_size ≤ p.gap_size)))

instance : IsTotal Pattern lexConfGapDesc := by
  constructor
  intro p q
  rcases lt_trichotomy q.confidence_score p.confidence_score with h | h | h
  · exact Or.inl (Or.inl h)
  · rcases le_total q.gap_size p.gap_size with hg | hg
    · exact Or.inl (Or.inr ⟨h, hg⟩)
    · exact Or.inr (Or.inr ⟨h.symm, hg⟩)
  · exact Or.inr (Or.inl h)

instance : IsTrans Pattern lexConfGapDesc := by
  constructor
  intro a b c hab hbc
  rcases hab with h1 | ⟨h1, g1⟩
  · rcases hbc with h2 | ⟨h2, g2⟩
    · exact Or.inl (lt_trans h2 h1)
    · exact Or.inl (h2 ▸ h1)
  · rcases hbc with h2 | ⟨h2, g2⟩
    · exact Or.inl (h1 ▸ h2)
    · exact Or.inr ⟨h2.trans h1, g2.trans g1⟩

/-- Spec-side greedy overlap resolution, from the spec's words: "greedily keep
a candidate only if its interval does not intersect any already-kept
candidate's interval". -/
def greedy_keep (kept : List Pattern) : List Pattern → List Pattern
  | [] => []
  | p :: rest =>
    if ∀ q ∈ kept, ¬ claimed_overlap p q then
      p :: greedy_keep (kept ++ [p]) rest
    else
      greedy_keep kept rest

/-- The C6 overlap filter exactly as the claim states it: candidates in
descending `confidence_score` order with ties broken by `gap_size`, then the
greedy keep. -/
def filterC6_as_stated (patterns : List Pattern) : List Pattern :=
  greedy_keep [] (patterns.insertionSort lexConfGapDesc)

/-- The C6 overlap filter as amended: candidates in descending
`confidence_score` order with ties kept in input order, then the greedy
keep. -/
def filterC6_amended (patterns : List Pattern) : List Pattern :=
  greedy_keep [] (patterns.insertionSort confDesc)

/-- Six candles producing two separated bullish Fair Value Gaps
(windows 0-2 and 3-5); the windows 1-3 and 2-4 have gaps but their middle
candle's body-to-range ratio is exactly 1/2, failing the strict `> 0.5`
impulse test. -/
def wCandles : List Candle :=
  [ ⟨0, 100, 100, 99, 100, 1⟩,
    ⟨1, 100, 111, 100, 110, 1⟩,
    ⟨2, 225/2, 113, 112, 113, 1⟩,
    ⟨3, 113, 114, 113, 227/2, 1⟩,
    ⟨4, 114, 126, 114, 125, 1⟩,
    ⟨5, 126, 128, 127, 255/2, 1⟩ ]

/-- Two overlapping candidate patterns with equal confidence scores and
different gap sizes: the source keeps the first-listed one (stable sort),
while a gap-size tie-break would keep the second. -/
def cpat1 : Pattern :=
  ⟨"fair_value_gap", "bullish", 0, 10, 2, 1, 1, 1, 1/2, false⟩

/-- See `cpat1`; larger gap, same confidence, overlapping interval. -/
def cpat2 : Pattern :=
  ⟨"fair_value_gap", "bullish", 5, 15, 3, 1, 2, 2, 1/2, false⟩

/-! ## src/utils/chart_analysis.py -/

/-- A swing point row (chart_analysis.py lines 38-43 and 55-60). -/
structure SwingPoint where
  index : ℕ
  timestamp : ℤ
  price : ℚ
  type : String
deriving DecidableEq, Repr

/-- The `{'highs': ..., 'lows': ...}` result of `find_swing_points`. -/
structure SwingPoints where
  highs : List SwingPoint
  lows : List SwingPoint
deriving DecidableEq, Repr

/-- `find_swing_points` (chart_analysis.py lines 12-65).  The loop runs `i`
over `range(lookback, len(df) - lookback)`, so the inner window
`[max(0, i-lookback), min(len(df), i+lookback+1))` is exactly
`[i-lookback, i+lookback+1)`.  The source's `threshold` parameter is unused by
its body and is omitted.  The source appends to the two lists in one loop;
collecting each list separately yields the same two lists. -/
def find_swing_points (df : List Candle) (lookback : ℕ) : SwingPoints :=
  let idxs := List.range' lookback (df.length - 2 * lookback)
  let highs := idxs.filterMap fun i =>
    let c := df.getD i dummyCandle
    if (List.range' (i - lookback) (2 * lookback + 1)).all (fun j =>
        j == i || decide ((df.getD j dummyCandle).high ≤ c.high)) then
      some ⟨i, c.timestamp, c.high, "swing_high"⟩
    else none
  let lows := idxs.filterMap fun i =>
    let c := df.getD i dummyCandle
    if (List.range' (i - lookback) (2 * lookback + 1)).all (fun j =>
        j == i || decide (c.low ≤ (df.getD j dummyCandle).low)) then
      some ⟨i, c.timestamp, c.low, "swing_low"⟩
    else none
  ⟨highs, lows⟩

/-- An equal-level zone (chart_analysis.py lines 104-110). -/
structure EqualLevel where
  price : ℚ
  count : ℕ
  type : String
  strength : ℕ
deriving DecidableEq, Repr

/-- Loop of `find_equal_levels` (chart_analysis.py lines 85-110) over the
index-annotated swing points: an unused point seeds a cluster of all later
unused points within tolerance (the matched indices become used whether or
not the cluster reaches size 2); clusters of size at least 2 emit a level
whose price is the cluster mean. -/
def find_equal_levels_aux (tolerance : ℚ) :
    List (ℕ × SwingPoint) → List ℕ → List EqualLevel
  | [], _ => []
  | (i, p1) :: rest, used =>
    if i ∈ used then find_equal_levels_aux tolerance rest used
    else
      let found := rest.filter fun jp =>
        decide (jp.1 ∉ used ∧ |p1.price - jp.2.price| / p1.price ≤ tolerance)
      let cluster_size := 1 + found.length
      let used2 := used ++ found.map Prod.fst
      if 2 ≤ cluster_size then
        { price := (p1.price + (found.map (fun jp => jp.2.price)).sum) / cluster_size,
          count := cluster_size,
          type := p1.type,
          strength := cluster_size } :: find_equal_levels_aux tolerance rest used2
      else
        find_equal_levels_aux tolerance rest used2

/-- `find_equal_levels` (chart_analysis.py lines 68-112). -/
def find_equal_levels (swing_points : List SwingPoint) (tolerance : ℚ) :
    List EqualLevel :=
  if swing_points.length < 2 then []
  else
    find_equal_levels_aux tolerance
      ((List.range swing_points.length).zip swing_points) []

/-- A round-number level (chart_analysis.py lines 144-149). -/
structure RoundLevel where
  price : ℚ
  type : String
  magnitude : ℚ
  distance_pct : ℚ
deriving DecidableEq, Repr

/-- Powers of ten over `ℚ` (kernel-computable). -/
def pow10nat : ℕ → ℚ
  | 0 => 1
  | n + 1 => 10 * pow10nat n

/-- `10 ** e` for an integer exponent. -/
def pow10 : ℤ → ℚ
  | .ofNat n => pow10nat n
  | .negSucc n => (pow10nat (n + 1))⁻¹

/-- Fuelled floor-log base 10 of a natural number. -/
def natLog10Aux : ℕ → ℕ → ℕ
  | 0, _ => 0
  | fuel + 1, n => if n < 10 then 0 else 1 + natLog10Aux fuel (n / 10)

/-- Floor of `log10 n` for `1 ≤ n` (0 otherwise). -/
def natLog10 (n : ℕ) : ℕ := natLog10Aux n n

/-- `int(np.log10(price))` for a positive rational price: truncation toward
zero of the base-10 logarithm.  For `p ≥ 1` this is `⌊log10 p⌋`, computed on
`⌊p⌋`; for `0 < p < 1` it is `-⌊log10 (1/p)⌋`.  (The source is undefined for
non-positive prices.) -/
def intLog10 (p : ℚ) : ℤ :=
  if 1 ≤ p then (natLog10 ⌊p⌋.toNat : ℤ)
  else -(natLog10 ⌊p⁻¹⌋.toNat : ℤ)

/-- First-seen deduplication by exact price (chart_analysis.py lines
152-157). -/
def dedup_round_by_price : List RoundLevel → List ℚ → List RoundLevel
  | [], _ => []
  | l :: ls, seen =>
    if l.price ∈ seen then dedup_round_by_price ls seen
    else l :: dedup_round_by_price ls (l.price :: seen)

/-- Ascending `distance_pct` (stable, as Python's sort). -/
def distLe (a b : RoundLevel) : Prop := a.distance_pct ≤ b.distance_pct

instance : DecidableRel distLe := fun a b =>
  inferInstanceAs (Decidable (a.distance_pct ≤ b.distance_pct))

instance : IsTotal RoundLevel distLe := ⟨fun a b => le_total a.distance_pct b.distance_pct⟩

instance : IsTrans RoundLevel distLe := ⟨fun _ _ _ => le_trans⟩

/-- `find_round_numbers` (chart_analysis.py lines 115-161).  `int(x)` on the
positive quantities `price/scale` is the floor. -/
def find_round_numbers (price : ℚ) (max_distance_pct : ℚ) : List RoundLevel :=
  let magnitude := pow10 (intLog10 price)
  let scales := [magnitude, magnitude / 10, magnitude / 100]
  let round_levels := scales.flatMap fun scale =>
    let lower := (⌊price / scale⌋ : ℚ) * scale
    let upper := ((⌊price / scale⌋ : ℚ) + 1) * scale
    [lower, upper].filterMap fun level =>
      if level = 0 then none
      else
        let distance_pct := |level - price| / price * 100
        if distance_pct ≤ max_distance_pct then
          some ⟨level, "round_number", scale, distance_pct⟩
        else none
  (dedup_round_by_price round_levels []).insertionSort distLe

/-- A volume-cluster zone (chart_analysis.py lines 195-201). -/
structure VolCluster where
  price_low : ℚ
  price_high : ℚ
  price_mid : ℚ
  total_volume : ℚ
  type : String
deriving DecidableEq, Repr

/-- `pandas.Series.quantile` with linear interpolation on a nonempty series:
position `q*(n-1)` between the ascending order statistics. -/
def seriesQuantile (vals : List ℚ) (q : ℚ) : ℚ :=
  let sorted := vals.insertionSort (fun a b : ℚ => a ≤ b)
  let n := sorted.length
  let pos := q * ((n : ℚ) - 1)
  let k := ⌊pos⌋.toNat
  let lower := sorted.getD k 0
  -- when `pos` is the last index the fractional part is 0, so the default
  -- value of the upper order statistic is never used
  lower + (pos - (k : ℚ)) * (sorted.getD (k + 1) lower - lower)

/-- Mid price of a candle (chart_analysis.py line 184). -/
def candleMid (c : Candle) : ℚ := (c.high + c.low) / 2

/-- Ascending mid-price (stable). -/
def midLe (a b : Candle) : Prop := candleMid a ≤ candleMid b

instance : DecidableRel midLe := fun a b =>
  inferInstanceAs (Decidable (candleMid a ≤ candleMid b))

instance : IsTotal Candle midLe := ⟨fun a b => le_total (candleMid a) (candleMid b)⟩

instance : IsTrans Candle midLe := ⟨fun _ _ _ => le_trans⟩

/-- Descending total volume (stable). -/
def volDesc (a b : VolCluster) : Prop := b.total_volume ≤ a.total_volume

instance : DecidableRel volDesc := fun a b =>
  inferInstanceAs (Decidable (b.total_volume ≤ a.total_volume))

instance : IsTotal VolCluster volDesc := ⟨fun a b => le_total b.total_volume a.total_volume⟩

instance : IsTrans VolCluster volDesc := ⟨fun _ _ _ h1 h2 => le_trans h2 h1⟩

/-- `find_volume_clusters` (chart_analysis.py lines 164-206).  On an empty
frame the source's quantile is NaN and the `>= NaN` filter keeps nothing.
The chunking loop `range(0, len, max(1, len//num))` takes chunks of size
`len//num`. -/
def find_volume_clusters (df : List Candle) (num_clusters : ℕ)
    (min_volume_percentile : ℚ) : List VolCluster :=
  let high_vol :=
    if df.isEmpty then []
    else
      let volume_threshold := seriesQuantile (df.map (·.volume)) (min_volume_percentile / 100)
      df.filter fun c => decide (volume_threshold ≤ c.volume)
  if high_vol.length < num_clusters then []
  else
    let sorted_vol := high_vol.insertionSort midLe
    let chunk_size := sorted_vol.length / num_clusters
    let step := max 1 chunk_size
    let starts := (List.range sorted_vol.length).filter fun i => i % step == 0
    let clusters := starts.filterMap fun i =>
      match (sorted_vol.drop i).take chunk_size with
      | [] => none
      | c :: cs =>
        some { price_low := cs.foldl (fun m x => min m x.low) c.low,
               price_high := cs.foldl (fun m x => max m x.high) c.high,
               price_mid := ((c :: cs).map candleMid).sum / ((c :: cs).length : ℚ),
               total_volume := ((c :: cs).map (·.volume)).sum,
               type := "volume_cluster" }
    (clusters.insertionSort volDesc).take num_clusters

/-- Trade direction; the source compares against the string `'long'` and
treats anything else as short. -/
inductive Direction
  | long
  | short
deriving DecidableEq, Repr

/-- A take-profit target dict (chart_analysis.py lines 239-244 etc.).
Strengths are the small integers 0, 1, 2 or `cluster strength + 2`. -/
structure Target where
  price : ℚ
  rr_ratio : ℚ
  type : String
  strength : ℚ
deriving DecidableEq, Repr

/-- Candidate gathering of `calculate_dynamic_take_profits`
(chart_analysis.py lines 223-340): swing points, equal levels, round numbers
and volume clusters strictly on the profitable side of entry, each kept only
with `rr >= 1.5`. -/
def potential_targets (entry_price stop_loss : ℚ) (direction : Direction)
    (df : List Candle) : List Target :=
  let risk := |entry_price - stop_loss|
  let swing_points := find_swing_points df 15
  match direction with
  | .long =>
    let swing_targets := swing_points.highs.filterMap fun h =>
      if entry_price < h.price then
        let rr := (h.price - entry_price) / risk
        if (3 : ℚ)/2 ≤ rr then some ⟨h.price, rr, "swing_high", 2⟩ else none
      else none
    let equal_targets :=
      if swing_points.highs.isEmpty then []
      else
        (find_equal_levels swing_points.highs (2/1000)).filterMap fun level =>
          if entry_price < level.price then
            let rr := (level.price - entry_price) / risk
            if (3 : ℚ)/2 ≤ rr then
              some ⟨level.price, rr, "equal_high", (level.strength : ℚ) + 2⟩
            else none
          else none
    let round_targets := (find_round_numbers entry_price 10).filterMap fun level =>
      if entry_price < level.price then
        let rr := (level.price - entry_price) / risk
        if (3 : ℚ)/2 ≤ rr then some ⟨level.price, rr, "round_number", 1⟩ else none
      else none
    let volume_targets := (find_volume_clusters df 5 70).filterMap fun cluster =>
      if entry_price < cluster.price_mid then
        let rr := (cluster.price_mid - entry_price) / risk
        if (3 : ℚ)/2 ≤ rr then some ⟨cluster.price_mid, rr, "volume_cluster", 1⟩
        else none
      else none
    swing_targets ++ equal_targets ++ round_targets ++ volume_targets
  | .short =>
    let swing_targets := swing_points.lows.filterMap fun l =>
      if l.price < entry_price then
        let rr := (entry_price - l.price) / risk
        if (3 : ℚ)/2 ≤ rr then some ⟨l.price, rr, "swing_low", 2⟩ else none
      else none
    let equal_targets :=
      if swing_points.lows.isEmpty then []
      else
        (find_equal_levels swing_points.lows (2/1000)).filterMap fun level =>
          if level.price < entry_price then
            let rr := (entry_price - level.price) / risk
            if (3 : ℚ)/2 ≤ rr then
              some ⟨level.price, rr, "equal_low", (level.strength : ℚ) + 2⟩
            else none
          else none
    let round_targets := (find_round_numbers entry_price 10).filterMap fun level =>
      if level.price < entry_price then
        let rr := (entry_price - level.price) / risk
        if (3 : ℚ)/2 ≤ rr then some ⟨level.price, rr, "round_number", 1⟩ else none
      else none
    let volume_targets := (find_volume_clusters df 5 70).filterMap fun cluster =>
      if cluster.price_mid < entry_price then
        let rr := (entry_price - cluster.price_mid) / risk
        if (3 : ℚ)/2 ≤ rr then some ⟨cluster.price_mid, rr, "volume_cluster", 1⟩
        else none
      else none
    swing_targets ++ equal_targets ++ round_targets ++ volume_targets

/-- Price proximity used by the deduplication step (chart_analysis.py line
347): within 0.5% of each other relative to entry. -/
def close_prices (entry_price : ℚ) (a b : Target) : Prop :=
  |a.price - b.price| / entry_price < 5/1000

instance (entry_price : ℚ) (a b : Target) : Decidable (close_prices entry_price a b) :=
  inferInstanceAs (Decidable (|a.price - b.price| / entry_price < 5/1000))

/-- One step of the deduplication loop (chart_analysis.py lines 344-356): the
candidate is compared against the first already-kept target within 0.5%; a
strictly stronger candidate displaces it (`list.remove` then append),
otherwise the candidate is dropped; with no nearby kept target it is
appended. -/
def dedup_step (entry_price : ℚ) (unique_targets : List Target)
    (target : Target) : List Target :=
  match unique_targets.find? (fun u => decide (close_prices entry_price target u)) with
  | none => unique_targets ++ [target]
  | some u =>
    if u.strength < target.strength then unique_targets.erase u ++ [target]
    else unique_targets

/-- The deduplication pass (chart_analysis.py lines 342-356). -/
def dedup_targets (entry_price : ℚ) (targets : List Target) : List Target :=
  targets.foldl (dedup_step entry_price) []

/-- Ascending `(rr_ratio, strength)` in lexicographic order (Python tuple
sort key, stable). -/
def lexRrStrength (a b : Target) : Prop :=
  a.rr_ratio < b.rr_ratio ∨ (a.rr_ratio = b.rr_ratio ∧ a.strength ≤ b.strength)

instance : DecidableRel lexRrStrength := fun a b =>
  inferInstanceAs
    (Decidable (a.rr_ratio < b.rr_ratio ∨ (a.rr_ratio = b.rr_ratio ∧ a.strength ≤ b.strength)))

instance : IsTotal Target lexRrStrength := by
  constructor
  intro a b
  rcases lt_trichotomy a.rr_ratio b.rr_ratio with h | h | h
  · exact Or.inl (Or.inl h)
  · rcases le_total a.strength b.strength with hs | hs
    · exact Or.inl (Or.inr ⟨h, hs⟩)
    · exact Or.inr (Or.inr ⟨h.symm, hs⟩)
  · exact Or.inr (Or.inl h)

instance : IsTrans Target lexRrStrength := by
  constructor
  intro a b c hab hbc
  rcases hab with h1 | ⟨h1, g1⟩
  · rcases hbc with h2 | ⟨h2, g2⟩
    · exact Or.inl (lt_trans h1 h2)
    · exact Or.inl (h2 ▸ h1)
  · rcases hbc with h2 | ⟨h2, g2⟩
    · exact Or.inl (h1 ▸ h2)
    · exact Or.inr ⟨h1.trans h2, g1.trans g2⟩

/-- Ascending `rr_ratio` (final sort, stable). -/
def rrLe (a b : Target) : Prop := a.rr_ratio ≤ b.rr_ratio

instance : DecidableRel rrLe := fun a b =>
  inferInstanceAs (Decidable (a.rr_ratio ≤ b.rr_ratio))

instance : IsTotal Target rrLe := ⟨fun a b => le_total a.rr_ratio b.rr_ratio⟩

instance : IsTrans Target rrLe := ⟨fun _ _ _ => le_trans⟩

/-- One comparison step of Python's `max(bucket, key=strength)`: replace the
best candidate only on a strictly greater key. -/
def strongest_step (best : Option Target) (t : Target) : Option Target :=
  match best with
  | none => some t
  | some b => if b.strength < t.strength then some t else best

/-- Python's `max(bucket, key=strength)`: the first element of maximal
strength. -/
def strongest_first (l : List Target) : Option Target :=
  l.foldl strongest_step none

/-- The R:R buckets of the source (chart_analysis.py lines 377-381):
`near = (1.5, 2.5)`, `mid = (2.5, 4.0)`, `far = (4.0, 100.0)`; membership is
`min_rr <= rr < max_rr`. -/
def rr_buckets : List (ℚ × ℚ) := [(3/2, 5/2), (5/2, 4), (4, 100)]

/-- Bucket-selection loop (chart_analysis.py lines 383-391): from each bucket
take the first-strongest target, stopping once `max_levels` are selected (the
check runs after each bucket). -/
def bucket_phase (unique_targets : List Target) (max_levels : ℕ) :
    List (ℚ × ℚ) → List Target → Bool → List Target
  | [], selected, _ => selected
  | (min_rr, max_rr) :: rest, selected, stopped =>
    if stopped then selected
    else
      let selected2 :=
        match strongest_first (unique_targets.filter fun t =>
            decide (min_rr ≤ t.rr_ratio ∧ t.rr_ratio < max_rr)) with
        | some best => selected ++ [best]
        | none => selected
      bucket_phase unique_targets max_levels rest selected2
        (decide (max_levels ≤ selected2.length))

/-- Top-up loop (chart_analysis.py lines 393-398): while fewer than
`max_levels` are selected and unselected targets remain, append the first
target not yet selected.  Each iteration of the source loop appends exactly
one target, so `max_levels` iterations suffice; the `none` branch (no
unselected target although the length test passed) would make the source loop
forever and is unreachable from `select_targets` (the selection is a
duplicate-free subset of `unique_targets`). -/
def append_phase (unique_targets : List Target) (max_levels : ℕ) :
    ℕ → List Target → List Target
  | 0, selected => selected
  | fuel + 1, selected =>
    if selected.length < max_levels ∧ selected.length < unique_targets.length then
      match unique_targets.find? (fun t => decide (t ∉ selected)) with
      | some t => append_phase unique_targets max_levels fuel (selected ++ [t])
      | none => selected
    else selected

/-- The whole selection stage (chart_analysis.py lines 362-398, minus the
fallback). -/
def select_targets (unique_targets : List Target) (max_levels : ℕ) : List Target :=
  append_phase unique_targets max_levels max_levels
    (bucket_phase unique_targets max_levels rr_buckets [] false)

/-- ATR-independent fallback targets (chart_analysis.py lines 364-374). -/
def fallback_targets (entry_price risk : ℚ) (direction : Direction) : List Target :=
  [ ⟨(match direction with
      | .long => entry_price + risk * 2
      | .short => entry_price - risk * 2), 2, "fallback", 0⟩,
    ⟨(match direction with
      | .long => entry_price + risk * 3
      | .short => entry_price - risk * 3), 3, "fallback", 0⟩,
    ⟨(match direction with
      | .long => entry_price + risk * 4
      | .short => entry_price - risk * 4), 4, "fallback", 0⟩ ]

/-- `calculate_dynamic_take_profits` (chart_analysis.py lines 209-407):
gather, deduplicate, sort by `(rr, strength)`; with no candidates return the
fallback truncated to `max_levels`; otherwise run the selection stage, sort
ascending by `rr_ratio` and truncate to `max_levels`. -/
def calculate_dynamic_take_profits (entry_price stop_loss : ℚ)
    (direction : Direction) (df : List Candle) (max_levels : ℕ) : List Target :=
  let risk := |entry_price - stop_loss|
  let unique_targets :=
    (dedup_targets entry_price
      (potential_targets entry_price stop_loss direction df)).insertionSort lexRrStrength
  if unique_targets.isEmpty then
    (fallback_targets entry_price risk direction).take max_levels
  else
    ((select_targets unique_targets max_levels).insertionSort rrLe).take max_levels

/-- The R:R buckets exactly as claim C5 states them: near `[1.5, 2.5)`,
mid `[2.5, 4.0)`, far `[4.0, ∞)` (no upper bound on the far bucket). -/
def rr_buckets_claimed : List (ℚ × Option ℚ) := [(3/2, some (5/2)), (5/2, some 4), (4, none)]

/-- Bucket selection as claim C5 states it, over buckets with an optional
upper bound. -/
def bucket_phase_claimed (unique_targets : List Target) (max_levels : ℕ) :
    List (ℚ × Option ℚ) → List Target → Bool → List Target
  | [], selected, _ => selected
  | (min_rr, hi) :: rest, selected, stopped =>
    if stopped then selected
    else
      let bucket := unique_targets.filter fun t =>
        match hi with
        | some max_rr => decide (min_rr ≤ t.rr_ratio ∧ t.rr_ratio < max_rr)
        | none => decide (min_rr ≤ t.rr_ratio)
      let selected2 :=
        match strongest_first bucket with
        | some best => selected ++ [best]
        | none => selected
      bucket_phase_claimed unique_targets max_levels rest selected2
        (decide (max_levels ≤ selected2.length))

/-- The selection stage exactly as claim C5 states it: one strongest pick per
claimed bucket in bucket order until `max_levels`, then the remaining
unselected survivors in their original (post-sort) order. -/
def select_targets_claimed (survivors : List Target) (max_levels : ℕ) : List Target :=
  let selected := bucket_phase_claimed survivors max_levels rr_buckets_claimed [] false
  selected ++
    (survivors.filter fun t => decide (t ∉ selected)).take (max_levels - selected.length)

/-- Survivor list separating the code's `[4, 100)` far bucket from the
claim's `[4, ∞)` one: the strongest far candidate has `rr_ratio = 150`. -/
def c5survivors : List Target :=
  [ ⟨101, 2, "round_number", 1⟩,
    ⟨102, 3, "round_number", 1⟩,
    ⟨105, 50, "swing_high", 1⟩,
    ⟨110, 150, "equal_high", 5⟩ ]

/-- Survivor list with all `rr_ratio < 100`, for the C5 witness. -/
def c5witnessSurvivors : List Target :=
  [ ⟨101, 2, "round_number", 1⟩,
    ⟨102, 3, "round_number", 1⟩,
    ⟨105, 50, "swing_high", 1⟩ ]

/-- Gathered candidates on which the deduplication loop leaves two surviving
targets within 0.5% of each other: the strong third candidate displaces the
first (its first match) and then coexists with the second. -/
def c7cands : List Target :=
  [ ⟨100, 2, "swing_high", 2⟩,
    ⟨1009/10, 2, "swing_high", 2⟩,
    ⟨2009/20, 3, "equal_high", 4⟩ ]

/-- Candidates whose 0.5%-closeness classes are separated, for the C7
witness. -/
def c7witnessCands : List Target :=
  [ ⟨100, 2, "swing_high", 2⟩,
    ⟨1009/10, 2, "swing_high", 2⟩ ]

/-! ## src/utils.py -/

/-- `calculate_position_size` (utils.py lines 138-153). -/
def calculate_position_size (entry_price stop_loss risk_amount : ℚ) : ℚ :=
  let risk_per_unit := |entry_price - stop_loss|
  if risk_per_unit = 0 then 0 else risk_amount / risk_per_unit

/-- `calculate_risk_reward` (utils.py lines 156-174): returns 0 on zero
risk. -/
def calculate_risk_reward (entry_price stop_loss take_profit : ℚ) : ℚ :=
  let risk := |entry_price - stop_loss|
  let reward := |take_profit - entry_price|
  if risk = 0 then 0 else reward / risk

/-! ## src/signals/generator.py -/

/-- `SignalGenerator` configuration (generator.py lines 27-34).  The unused
`take_profit_levels` option is omitted. -/
structure GenConfig where
  min_risk_reward : ℚ
  stop_loss_atr_multiplier : ℚ
  max_risk_percent : ℚ
  account_size : ℚ
deriving DecidableEq, Repr

/-- Defaults `min_risk_reward = 2.0`, `stop_loss_atr_multiplier = 1.5`,
`max_risk_per_trade_percent = 1.0`, `account_size = 10000`. -/
def defaultGenConfig : GenConfig := ⟨2, 3/2, 1, 10000⟩

/-- The true-range series of `_calculate_atr` (generator.py lines 195-200):
row 0 has NaN shifted closes, so its row maximum is `high - low`. -/
def true_ranges (df : List Candle) : List ℚ :=
  match df with
  | [] => []
  | c0 :: rest =>
    (c0.high - c0.low) ::
      (df.zip rest).map fun pc =>
        max (pc.2.high - pc.2.low)
          (max |pc.2.high - pc.1.close| |pc.2.low - pc.1.close|)

/-- `SignalGenerator._calculate_atr` (generator.py lines 180-205): with fewer
rows than the period, `(max(high) - min(low)) / len(df)`; otherwise the mean
of the last `period` true ranges.  (On an empty frame the source produces
NaN from a 0/0; the generator never reaches this because it dereferences
`df.iloc[-1]` first, so the empty case is mapped to 0.) -/
def calculate_atr (df : List Candle) (period : ℕ) : ℚ :=
  match df with
  | [] => 0
  | c :: cs =>
    if (c :: cs).length < period then
      ((cs.foldl (fun m x => max m x.high) c.high)
          - (cs.foldl (fun m x => min m x.low) c.low)) / ((c :: cs).length : ℚ)
    else
      ((true_ranges (c :: cs)).drop ((c :: cs).length - period)).sum / (period : ℚ)

/-- Trade direction of `_generate_fvg_signal` (generator.py lines 86-102):
`long` for a bullish pattern, `short` otherwise. -/
def fvg_direction (p : Pattern) : Direction :=
  if p.direction = "bullish" then .long else .short

/-- Entry price of `_generate_fvg_signal`: 25% into the gap from the side
nearer the fill direction (generator.py lines 88 and 97). -/
def fvg_entry_price (p : Pattern) : ℚ :=
  if p.direction = "bullish" then
    p.price_low + (p.price_high - p.price_low) * (1/4)
  else
    p.price_high - (p.price_high - p.price_low) * (1/4)

/-- Stop loss of `_generate_fvg_signal`: beyond the gap boundary by
`atr * stop_loss_atr_multiplier` (generator.py lines 91 and 100). -/
def fvg_stop_loss (cfg : GenConfig) (p : Pattern) (df : List Candle) : ℚ :=
  let atr := calculate_atr df 14
  if p.direction = "bullish" then
    p.price_low - atr * cfg.stop_loss_atr_multiplier
  else
    p.price_high + atr * cfg.stop_loss_atr_multiplier

/-- The dynamic take-profit request of `_generate_fvg_signal`
(generator.py lines 109-115), with `max_levels = 3`. -/
def fvg_tp_targets (cfg : GenConfig) (p : Pattern) (df : List Candle) : List Target :=
  calculate_dynamic_take_profits (fvg_entry_price p) (fvg_stop_loss cfg p df)
    (fvg_direction p) df 3

/-- `take_profit_1 = tp_targets[0]['price'] if len(tp_targets) > 0 else None`
(generator.py line 118). -/
def fvg_take_profit_1 (cfg : GenConfig) (p : Pattern) (df : List Candle) : Option ℚ :=
  ((fvg_tp_targets cfg p df)[0]?).map (·.price)

/-- A generated signal dict (generator.py lines 155-174).  The wall-clock
field `valid_until`, the not-yet-assigned `pattern_id` and the
human-readable `notes` string are not modelled. -/
structure GenSignal where
  symbol : String
  timeframe : String
  direction : Direction
  entry_price : ℚ
  stop_loss : ℚ
  take_profit_1 : Option ℚ
  take_profit_2 : Option ℚ
  take_profit_3 : Option ℚ
  risk_reward_ratio : ℚ
  risk_amount : ℚ
  position_size : ℚ
  status : String
  notified : Bool
  tp_types : List String
  tp_rr_ratios : List ℚ
deriving DecidableEq, Repr

/-- `SignalGenerator._generate_fvg_signal` (generator.py lines 63-178).  The
source reads `df.iloc[-1]['close']` into an unused local (`current_price`)
and computes an unused `risk`; both are dead code.  `if take_profit_1:` is
Python truthiness: both `None` and `0.0` reject the signal. -/
def generate_fvg_signal (cfg : GenConfig) (p : Pattern) (symbol timeframe : String)
    (df : List Candle) : Option GenSignal :=
  let entry_price := fvg_entry_price p
  let stop_loss := fvg_stop_loss cfg p df
  let trade_direction := fvg_direction p
  let tp_targets := fvg_tp_targets cfg p df
  let take_profit_2 := (tp_targets[1]?).map (·.price)
  let take_profit_3 := (tp_targets[2]?).map (·.price)
  match fvg_take_profit_1 cfg p df with
  | none => none
  | some tp1 =>
    if tp1 = 0 then none
    else
      let rr_ratio := calculate_risk_reward entry_price stop_loss tp1
      if rr_ratio < cfg.min_risk_reward then none
      else
        let risk_amount := cfg.account_size * (cfg.max_risk_percent / 100)
        some
          { symbol := symbol
            timeframe := timeframe
            direction := trade_direction
            entry_price := entry_price
            stop_loss := stop_loss
            take_profit_1 := fvg_take_profit_1 cfg p df
            take_profit_2 := take_profit_2
            take_profit_3 := take_profit_3
            risk_reward_ratio := rr_ratio
            risk_amount := risk_amount
            position_size := calculate_position_size entry_price stop_loss risk_amount
            status := "pending"
            notified := false
            tp_types := tp_targets.map (·.type)
            tp_rr_ratios := tp_targets.map (·.rr_ratio) }

/-- `SignalGenerator.generate_signals_from_patterns` (generator.py lines
36-61): dispatch on the pattern type, appending non-`None` signals. -/
def generate_signals_from_patterns (cfg : GenConfig) (patterns : List Pattern)
    (symbol timeframe : String) (df : List Candle) : List GenSignal :=
  patterns.filterMap fun p =>
    if p.pattern_type = "fair_value_gap" then
      generate_fvg_signal cfg p symbol timeframe df
    else none

/-- Degenerate pattern for the C9 witness: zero-width gap. -/
def c9pattern : Pattern :=
  ⟨"fair_value_gap", "bullish", 0, 2, 100, 100, 0, 0, 1/2, false⟩

/-- Flat single candle, so that the ATR is 0 and entry equals stop for
`c9pattern`. -/
def c9df : List Candle := [⟨0, 100, 100, 100, 100, 1⟩]

/-! ## src/backtesting/engine.py -/

/-- Engine configuration (engine.py lines 24-26). -/
structure BTConfig where
  initial_capital : ℚ
  commission_percent : ℚ
  slippage_percent : ℚ
deriving DecidableEq, Repr

/-- Defaults `initial_capital = 10000`, `commission_percent = 0.1`,
`slippage_percent = 0.05`. -/
def defaultBTConfig : BTConfig := ⟨10000, 1/10, 1/20⟩

/-- The signal dict fields the engine reads (engine.py lines 82-109).  The
source's `.get` defaults for `generated_at` and `position_size` are for
robustness; the scripts always supply them, so they are modelled as
present.  `risk_amount` is read into an unused local and omitted. -/
structure BTSignal where
  symbol : String
  timeframe : String
  direction : Direction
  entry_price : ℚ
  stop_loss : ℚ
  take_profit_1 : ℚ
  position_size : ℚ
  generated_at : ℤ
deriving DecidableEq, Repr

/-- A closed-trade record (engine.py lines 228-239). -/
structure BTTrade where
  symbol : String
  direction : Direction
  entry_price : ℚ
  exit_price : ℚ
  entry_time : ℤ
  exit_time : ℤ
  exit_reason : String
  position_size : ℚ
  pnl : ℚ
  pnl_percent : ℚ
deriving DecidableEq, Repr

/-- An equity-curve point (engine.py lines 244-247). -/
structure EquityPoint where
  timestamp : ℤ
  equity : ℚ
deriving DecidableEq, Repr

/-- The engine's mutable per-run state (engine.py lines 28-39): capital,
closed trades and equity curve.  (`self.positions` is never written by the
source and is omitted.) -/
structure BTState where
  capital : ℚ
  closed_trades : List BTTrade
  equity_curve : List EquityPoint
deriving DecidableEq, Repr

/-- An open position (engine.py lines 124-132). -/
structure BTPosition where
  signal : BTSignal
  entry_price : ℚ
  position_size : ℚ
  direction : Direction
  entry_time : ℤ
  stop_loss : ℚ
  take_profit : ℚ
deriving DecidableEq, Repr

/-- Exit information (engine.py lines 166-192). -/
structure ExitInfo where
  exit_price : ℚ
  exit_time : ℤ
  exit_reason : String
deriving DecidableEq, Repr

/-- `BacktestEngine._apply_slippage` (engine.py lines 251-268). -/
def apply_slippage (cfg : BTConfig) (price : ℚ) (direction : Direction)
    (is_exit : Bool) : ℚ :=
  let slippage := price * (cfg.slippage_percent / 100)
  match direction with
  | .long => if is_exit then price - slippage else price + slippage
  | .short => if is_exit then price + slippage else price - slippage

/-- `BacktestEngine._check_exit` (engine.py lines 148-194): stop loss is
checked before take profit, for each direction. -/
def check_exit (position : BTPosition) (candle : Candle) : Option ExitInfo :=
  match position.direction with
  | .long =>
    if candle.low ≤ position.stop_loss then
      some ⟨position.stop_loss, candle.timestamp, "stop_loss"⟩
    else if position.take_profit ≤ candle.high then
      some ⟨position.take_profit, candle.timestamp, "take_profit"⟩
    else none
  | .short =>
    if position.stop_loss ≤ candle.high then
      some ⟨position.stop_loss, candle.timestamp, "stop_loss"⟩
    else if candle.low ≤ position.take_profit then
      some ⟨position.take_profit, candle.timestamp, "take_profit"⟩
    else none

/-- The net P/L of `_close_position` (engine.py lines 212-221): directional
P/L at the slippage-adjusted exit, minus exit commission. -/
def trade_pnl (cfg : BTConfig) (position : BTPosition) (einfo : ExitInfo) : ℚ :=
  let exit_price_actual := apply_slippage cfg einfo.exit_price position.direction true
  let pnl :=
    match position.direction with
    | .long => (exit_price_actual - position.entry_price) * position.position_size
    | .short => (position.entry_price - exit_price_actual) * position.position_size
  let exit_cost := position.position_size * exit_price_actual
  pnl - exit_cost * (cfg.commission_percent / 100)

/-- The closed-trade record of `_close_position` (engine.py lines 228-239). -/
def trade_record (cfg : BTConfig) (position : BTPosition) (einfo : ExitInfo) : BTTrade :=
  { symbol := position.signal.symbol
    direction := position.direction
    entry_price := position.entry_price
    exit_price := apply_slippage cfg einfo.exit_price position.direction true
    entry_time := position.entry_time
    exit_time := einfo.exit_time
    exit_reason := einfo.exit_reason
    position_size := position.position_size
    pnl := trade_pnl cfg position einfo
    pnl_percent := trade_pnl cfg position einfo
      / (position.position_size * position.entry_price) * 100 }

/-- `BacktestEngine._close_position` (engine.py lines 196-249): capital grows
by the exit notional; one closed-trade record and one equity point
`{exit_time, capital + pnl}` are appended (`capital` here being the already
updated capital). -/
def close_position (cfg : BTConfig) (st : BTState) (position : BTPosition)
    (einfo : ExitInfo) : BTState :=
  let exit_cost := position.position_size *
    apply_slippage cfg einfo.exit_price position.direction true
  { capital := st.capital + exit_cost
    closed_trades := st.closed_trades ++ [trade_record cfg position einfo]
    equity_curve := st.equity_curve ++
      [⟨einfo.exit_time, st.capital + exit_cost + trade_pnl cfg position einfo⟩] }

/-- The candle walk of `_process_signal` (engine.py lines 134-141): stop at
the first candle where an exit condition fires. -/
def first_exit (position : BTPosition) : List Candle → Option ExitInfo
  | [] => none
  | c :: rest =>
    match check_exit position c with
    | some einfo => some einfo
    | none => first_exit position rest

/-- `df_after = df[df['timestamp'] >= signal_time]` (engine.py line 99). -/
def df_after_of (signal : BTSignal) (df : List Candle) : List Candle :=
  df.filter fun c => decide (signal.generated_at ≤ c.timestamp)

/-- The slippage-adjusted entry price (engine.py line 105). -/
def entry_price_actual_of (cfg : BTConfig) (signal : BTSignal) : ℚ :=
  apply_slippage cfg signal.entry_price signal.direction false

/-- Entry notional plus entry commission (engine.py lines 112-114). -/
def total_entry_cost_of (cfg : BTConfig) (signal : BTSignal) : ℚ :=
  let entry_cost := signal.position_size * entry_price_actual_of cfg signal
  entry_cost + entry_cost * (cfg.commission_percent / 100)

/-- The opened position dict (engine.py lines 124-132). -/
def position_of (cfg : BTConfig) (signal : BTSignal) (df : List Candle) : BTPosition :=
  { signal := signal
    entry_price := entry_price_actual_of cfg signal
    position_size := signal.position_size
    direction := signal.direction
    entry_time := ((df_after_of signal df).headD dummyCandle).timestamp
    stop_loss := signal.stop_loss
    take_profit := signal.take_profit_1 }

/-- `BacktestEngine._process_signal` (engine.py lines 74-146).  The OHLCV
dict is modelled as an association list with unique keys (a Python dict). -/
def process_signal (cfg : BTConfig)
    (ohlcv_data : List ((String × String) × List Candle)) (st : BTState)
    (signal : BTSignal) : BTState :=
  match ohlcv_data.lookup (signal.symbol, signal.timeframe) with
  | none => st
  | some df =>
    if (df_after_of signal df).length < 2 then st
    else
      if st.capital < total_entry_cost_of cfg signal then st
      else
        let st2 : BTState := { st with capital := st.capital - total_entry_cost_of cfg signal }
        match first_exit (position_of cfg signal df) ((df_after_of signal df).drop 1) with
        | some einfo => close_position cfg st2 (position_of cfg signal df) einfo
        | none => st2

/-- Ascending generation time (stable, as Python's `sorted`). -/
def genLe (a b : BTSignal) : Prop := a.generated_at ≤ b.generated_at

instance : DecidableRel genLe := fun a b =>
  inferInstanceAs (Decidable (a.generated_at ≤ b.generated_at))

instance : IsTotal BTSignal genLe := ⟨fun a b => le_total a.generated_at b.generated_at⟩

instance : IsTrans BTSignal genLe := ⟨fun _ _ _ => le_trans⟩

/-- A backtest result (engine.py lines 277-332), restricted to the fields
common to both branches of `_calculate_results`.  (The source's two branches
return dicts with different extra keys: the empty branch adds
`sharpe_ratio: 0`, the non-empty branch adds the capital figures, the trade
list and the equity curve; those extras are not modelled.) -/
structure BTResult where
  total_return : ℚ
  total_return_percent : ℚ
  win_rate : ℚ
  total_trades : ℕ
  winning_trades : ℕ
  losing_trades : ℕ
  avg_win : ℚ
  avg_loss : ℚ
  profit_factor : ℚ
  max_drawdown : ℚ
deriving DecidableEq, Repr

/-- `BacktestEngine._calculate_max_drawdown` (engine.py lines 336-357). -/
def calculate_max_drawdown (st : BTState) : ℚ :=
  match st.equity_curve with
  | [] => 0
  | e0 :: _ =>
    ((st.equity_curve.map (·.equity)).foldl
      (fun pm v =>
        let peak := if pm.1 < v then v else pm.1
        let dd := (peak - v) / peak * 100
        (peak, if pm.2 < dd then dd else pm.2))
      (e0.equity, 0)).2

/-- `BacktestEngine._calculate_results` (engine.py lines 270-334). -/
def calculate_results (cfg : BTConfig) (st : BTState) : BTResult :=
  if st.closed_trades.isEmpty then
    ⟨0, 0, 0, 0, 0, 0, 0, 0, 0, 0⟩
  else
    let total_trades := st.closed_trades.length
    let winning_trades := st.closed_trades.filter fun t => decide (0 < t.pnl)
    let losing_trades := st.closed_trades.filter fun t => decide (t.pnl ≤ 0)
    let total_wins := winning_trades.length
    let total_losses := losing_trades.length
    let win_rate := if 0 < total_trades then (total_wins : ℚ) / total_trades * 100 else 0
    let total_return := st.capital - cfg.initial_capital
    let total_return_percent := total_return / cfg.initial_capital * 100
    let avg_win :=
      if 0 < total_wins then (winning_trades.map (·.pnl)).sum / total_wins else 0
    let avg_loss :=
      if 0 < total_losses then (losing_trades.map (·.pnl)).sum / total_losses else 0
    let total_win_amount := (winning_trades.map (·.pnl)).sum
    let total_loss_amount := |(losing_trades.map (·.pnl)).sum|
    let profit_factor :=
      if 0 < total_loss_amount then total_win_amount / total_loss_amount else 0
    { total_return := total_return
      total_return_percent := total_return_percent
      win_rate := win_rate
      total_trades := total_trades
      winning_trades := total_wins
      losing_trades := total_losses
      avg_win := avg_win
      avg_loss := avg_loss
      profit_factor := profit_factor
      max_drawdown := calculate_max_drawdown st }

/-- The engine state after `run_backtest`'s reset, sort and signal loop
(engine.py lines 52-62). -/
def run_final_state (cfg : BTConfig) (signals : List BTSignal)
    (ohlcv_data : List ((String × String) × List Candle)) : BTState :=
  (signals.insertionSort genLe).foldl (process_signal cfg ohlcv_data)
    ⟨cfg.initial_capital, [], []⟩

/-- `BacktestEngine.run_backtest` (engine.py lines 41-72). -/
def run_backtest (cfg : BTConfig) (signals : List BTSignal)
    (ohlcv_data : List ((String × String) × List Candle)) : BTResult :=
  calculate_results cfg (run_final_state cfg signals ohlcv_data)

/-- Lower bounds threading through a bucket list: each bucket's range sits at
or above the previous bucket's upper bound. -/
def bucketChain : ℚ → List (ℚ × ℚ) → Prop
  | _, [] => True
  | b, (lo, hi) :: rest => b ≤ lo ∧ lo < hi ∧ bucketChain hi rest

/-- Spec-side exit condition, from claim C4's words: a long fires when
`low ≤ stop_loss` or `high ≥ take_profit`; a short fires when
`high ≥ stop_loss` or `low ≤ take_profit`. -/
def fires (position : BTPosition) (candle : Candle) : Prop :=
  if position.direction = .long then
    candle.low ≤ position.stop_loss ∨ position.take_profit ≤ candle.high
  else
    position.stop_loss ≤ candle.high ∨ candle.low ≤ position.take_profit

instance (position : BTPosition) (candle : Candle) : Decidable (fires position candle) := by
  unfold fires
  infer_instance

/-- Spec-side exit reason, from claim C4's words: the stop is checked before
the take profit within each candle. -/
def claimed_exit_reason (position : BTPosition) (candle : Candle) : String :=
  if position.direction = .long then
    if candle.low ≤ position.stop_loss then "stop_loss" else "take_profit"
  else
    if position.stop_loss ≤ candle.high then "stop_loss" else "take_profit"

/-- Spec-side exit information at a firing candle, from claim C4's words. -/
def claimed_exit_info (position : BTPosition) (candle : Candle) : ExitInfo :=
  if position.direction = .long then
    if candle.low ≤ position.stop_loss then
      ⟨position.stop_loss, candle.timestamp, "stop_loss"⟩
    else ⟨position.take_profit, candle.timestamp, "take_profit"⟩
  else
    if position.stop_loss ≤ candle.high then
      ⟨position.stop_loss, candle.timestamp, "stop_loss"⟩
    else ⟨position.take_profit, candle.timestamp, "take_profit"⟩

/-- Concrete signal for the engine witnesses: long, entry 100, stop 95,
first take profit 110, ten units, generated at time 0. -/
def btWitnessSignal : BTSignal := ⟨"BTC/USDT", "1h", .long, 100, 95, 110, 10, 0⟩

/-- Two candles after the signal: the second reaches the take profit. -/
def btWitnessCandles : List Candle :=
  [⟨0, 100, 101, 99, 100, 1⟩, ⟨1, 105, 111, 104, 110, 1⟩]

/-- OHLCV map holding the witness series. -/
def btWitnessData : List ((String × String) × List Candle) :=
  [(("BTC/USDT", "1h"), btWitnessCandles)]

/-- An oversized signal: its notional exceeds the default capital. -/
def btBigSignal : BTSignal := ⟨"BTC/USDT", "1h", .long, 100, 95, 110, 200, 0⟩

/-- A series with a single candle at or after time 0 (the entry candle is the
last candle of the series). -/
def btShortData : List ((String × String) × List Candle) :=
  [(("BTC/USDT", "1h"), [⟨-10, 100, 101, 99, 100, 1⟩, ⟨5, 100, 101, 99, 100, 1⟩])]

/-- Position for the C3 counterexample: one unit long from 100. -/
def c3position : BTPosition := ⟨btWitnessSignal, 100, 1, .long, 0, 95, 110⟩

/-- Exit at 110 for the C3 counterexample. -/
def c3einfo : ExitInfo := ⟨110, 1, "take_profit"⟩

/-- Frictionless engine configuration for the C3 counterexample. -/
def c3cfg : BTConfig := ⟨10000, 0, 0⟩

/-- Zero-capital state for the C3 counterexample. -/
def c3state : BTState := ⟨0, [], []⟩

end CryptoTrader

/-! # Theorems -/

namespace CryptoTrader

/-- Time overlap of patterns is symmetric. -/
theorem patterns_overlap_comm (p q : Pattern) :
    patterns_overlap p q = patterns_overlap q p := by
  simp [patterns_overlap, Bool.or_comm]

/-- The Boolean overlap test decides the spec-side intersection predicate. -/
theorem patterns_overlap_true_iff (p q : Pattern) :
    patterns_overlap p q = true ↔ claimed_overlap p q := by
  simp [patterns_overlap, claimed_overlap]

/-- Non-overlap means one interval ends strictly before the other starts. -/
theorem patterns_overlap_eq_false_iff (p q : Pattern) :
    patterns_overlap p q = false ↔
      (p.end_timestamp < q.start_timestamp ∨ q.end_timestamp < p.start_timestamp) := by
  simp only [patterns_overlap, Bool.not_eq_false', Bool.or_eq_true, decide_eq_true_eq]

/-- The greedy fold of `keep_step` preserves pairwise non-overlap. -/
theorem foldl_keep_step_pairwise :
    ∀ (l acc : List Pattern),
      acc.Pairwise (fun p q => patterns_overlap p q = false) →
      (l.foldl keep_step acc).Pairwise (fun p q => patterns_overlap p q = false) := by
  intro l
  induction l with
  | nil => intro acc h; exact h
  | cons p rest ih =>
    intro acc h
    simp only [List.foldl_cons]
    apply ih
    unfold keep_step
    by_cases hany : acc.any (fun existing => patterns_overlap p existing) = true
    · rw [if_pos hany]; exact h
    · rw [if_neg hany]
      rw [List.pairwise_append]
      refine ⟨h, List.pairwise_singleton _ _, ?_⟩
      intro a ha b hb
      rw [List.mem_singleton] at hb
      subst hb
      have := List.any_eq_false.mp (Bool.eq_false_iff.mpr hany) a ha
      rw [patterns_overlap_comm]
      exact Bool.eq_false_iff.mpr this

/-- The output of the overlap filter is pairwise non-overlapping. -/
theorem filter_overlapping_patterns_pairwise (ps : List Pattern) :
    (filter_overlapping_patterns ps).Pairwise
      (fun p q => patterns_overlap p q = false) :=
  foldl_keep_step_pairwise _ [] List.Pairwise.nil

/-- C1: for every candle sequence, any two distinct patterns returned by
`FairValueGap.detect` (which ends with `filter_overlapping_patterns`) are
non-overlapping in time: one ends strictly before the other starts. -/
theorem C1_detect_pairwise_nonoverlap (cfg : FVGConfig) (df : List Candle)
    (i j : ℕ) (hi : i < (detect cfg df).length) (hj : j < (detect cfg df).length)
    (hij : i ≠ j) :
    ((detect cfg df).getD i dummyPattern).end_timestamp <
      ((detect cfg df).getD j dummyPattern).start_timestamp ∨
    ((detect cfg df).getD j dummyPattern).end_timestamp <
      ((detect cfg df).getD i dummyPattern).start_timestamp := by
  have hpw : (detect cfg df).Pairwise (fun p q => patterns_overlap p q = false) := by
    unfold detect
    dsimp only
    split
    · exact List.Pairwise.nil
    · exact filter_overlapping_patterns_pairwise _
  rw [List.pairwise_iff_getElem] at hpw
  have key : ∀ a b : ℕ, ∀ (ha : a < (detect cfg df).length)
      (hb : b < (detect cfg df).length), a < b →
      patterns_overlap ((detect cfg df).getD a dummyPattern)
        ((detect cfg df).getD b dummyPattern) = false := by
    intro a b ha hb hab
    rw [List.getD_eq_getElem _ _ ha, List.getD_eq_getElem _ _ hb]
    exact hpw a b ha hb hab
  have main : patterns_overlap ((detect cfg df).getD i dummyPattern)
      ((detect cfg df).getD j dummyPattern) = false := by
    rcases Nat.lt_or_ge i j with hlt | hge
    · exact key i j hi hj hlt
    · have hlt : j < i := lt_of_le_of_ne hge (Ne.symm hij)
      rw [patterns_overlap_comm]
      exact key j i hj hi hlt
  rwa [patterns_overlap_eq_false_iff] at main

/-- Witness for C1: on `wCandles`, `detect` returns two patterns and they are
separated in time. -/
theorem C1_witness :
    (0 < (detect defaultFVGConfig wCandles).length ∧
      1 < (detect defaultFVGConfig wCandles).length ∧ (0 : ℕ) ≠ 1) ∧
    (((detect defaultFVGConfig wCandles).getD 0 dummyPattern).end_timestamp <
        ((detect defaultFVGConfig wCandles).getD 1 dummyPattern).start_timestamp ∨
      ((detect defaultFVGConfig wCandles).getD 1 dummyPattern).end_timestamp <
        ((detect defaultFVGConfig wCandles).getD 0 dummyPattern).start_timestamp) :=
  ⟨⟨by decide, by decide, by decide⟩,
    C1_detect_pairwise_nonoverlap defaultFVGConfig wCandles 0 1 (by decide)
      (by decide) (by decide)⟩

/-- The source's greedy fold equals the spec-side greedy keep. -/
theorem foldl_keep_step_eq_greedy :
    ∀ (l kept : List Pattern), l.foldl keep_step kept = kept ++ greedy_keep kept l := by
  intro l
  induction l with
  | nil => intro kept; simp [greedy_keep]
  | cons p rest ih =>
    intro kept
    simp only [List.foldl_cons, greedy_keep]
    by_cases h : ∀ q ∈ kept, ¬ claimed_overlap p q
    · rw [if_pos h]
      have hstep : keep_step kept p = kept ++ [p] := by
        unfold keep_step
        rw [if_neg]
        intro hany
        obtain ⟨q, hq, hov⟩ := List.any_eq_true.mp hany
        exact h q hq ((patterns_overlap_true_iff p q).mp hov)
      rw [hstep, ih]
      simp
    · rw [if_neg h]
      have hstep : keep_step kept p = kept := by
        unfold keep_step
        rw [if_pos]
        push_neg at h
        obtain ⟨q, hq, hov⟩ := h
        exact List.any_eq_true.mpr ⟨q, hq, (patterns_overlap_true_iff p q).mpr hov⟩
      rw [hstep, ih]

/-- C6 (amended): the filter considers candidates in descending order of
`confidence_score` with ties kept in input order (no gap-size tie-break), and
greedily keeps a candidate exactly when its interval does not intersect any
already-kept candidate's interval. -/
theorem C6_filter_is_greedy_conf_desc (patterns : List Pattern) :
    filter_overlapping_patterns patterns = filterC6_amended patterns := by
  unfold filter_overlapping_patterns filterC6_amended
  rw [foldl_keep_step_eq_greedy]
  simp

/-- Counterexample for C6 as stated: with two overlapping candidates of equal
confidence and different gap sizes, the source keeps the first seen, whereas
tie-breaking by gap size would keep the other. -/
theorem C6_counterexample :
    filter_overlapping_patterns [cpat1, cpat2] ≠ filterC6_as_stated [cpat1, cpat2] := by
  decide

/-! ### Take-profit lemmas -/

/-- Membership is invariant under the stable sort. -/
theorem mem_insertionSort {α : Type} (r : α → α → Prop) [DecidableRel r]
    {x : α} {l : List α} : x ∈ l.insertionSort r ↔ x ∈ l :=
  (List.perm_insertionSort r l).mem_iff

/-- Extraction for the guarded `filterMap` blocks of `potential_targets`. -/
theorem mem_guarded_targets {α : Type} {l : List α} {pr rrv stv : α → ℚ}
    {ty : String} {P Q : α → Prop} [DecidablePred P] [DecidablePred Q] {t : Target}
    (h : t ∈ l.filterMap fun x =>
      if P x then (if Q x then some ⟨pr x, rrv x, ty, stv x⟩ else none) else none) :
    ∃ x ∈ l, P x ∧ Q x ∧ t = ⟨pr x, rrv x, ty, stv x⟩ := by
  obtain ⟨x, hx, hfx⟩ := List.mem_filterMap.mp h
  by_cases hP : P x
  · rw [if_pos hP] at hfx
    by_cases hQ : Q x
    · rw [if_pos hQ] at hfx
      exact ⟨x, hx, hP, hQ, (Option.some_injective _ hfx).symm⟩
    · rw [if_neg hQ] at hfx; cases hfx
  · rw [if_neg hP] at hfx; cases hfx

/-- Every gathered candidate has `rr_ratio ≥ 1.5` and lies strictly on the
profitable side of the entry price. -/
theorem potential_targets_ok (entry_price stop_loss : ℚ) (direction : Direction)
    (df : List Candle) :
    ∀ t ∈ potential_targets entry_price stop_loss direction df,
      (3 : ℚ)/2 ≤ t.rr_ratio ∧
        (direction = .long → entry_price < t.price) ∧
        (direction = .short → t.price < entry_price) := by
  intro t ht
  cases direction with
  | long =>
    simp only [potential_targets, List.mem_append] at ht
    rcases ht with ((h | h) | h) | h
    · obtain ⟨x, hx, hP, hQ, rfl⟩ := mem_guarded_targets h
      exact ⟨hQ, fun _ => hP, fun hc => Direction.noConfusion hc⟩
    · rcases hemp : (find_swing_points df 15).highs.isEmpty with hT | hF
      · rw [hemp] at h
        simp only [if_neg Bool.false_ne_true] at h
        obtain ⟨x, hx, hP, hQ, rfl⟩ := mem_guarded_targets h
        exact ⟨hQ, fun _ => hP, fun hc => Direction.noConfusion hc⟩
      · rw [hemp] at h
        simp only [if_pos rfl] at h
        cases h
    · obtain ⟨x, hx, hP, hQ, rfl⟩ := mem_guarded_targets h
      exact ⟨hQ, fun _ => hP, fun hc => Direction.noConfusion hc⟩
    · obtain ⟨x, hx, hP, hQ, rfl⟩ := mem_guarded_targets h
      exact ⟨hQ, fun _ => hP, fun hc => Direction.noConfusion hc⟩
  | short =>
    simp only [potential_targets, List.mem_append] at ht
    rcases ht with ((h | h) | h) | h
    · obtain ⟨x, hx, hP, hQ, rfl⟩ := mem_guarded_targets h
      exact ⟨hQ, fun hc => Direction.noConfusion hc, fun _ => hP⟩
    · rcases hemp : (find_swing_points df 15).lows.isEmpty with hT | hF
      · rw [hemp] at h
        simp only [if_neg Bool.false_ne_true] at h
        obtain ⟨x, hx, hP, hQ, rfl⟩ := mem_guarded_targets h
        exact ⟨hQ, fun hc => Direction.noConfusion hc, fun _ => hP⟩
      · rw [hemp] at h
        simp only [if_pos rfl] at h
        cases h
    · obtain ⟨x, hx, hP, hQ, rfl⟩ := mem_guarded_targets h
      exact ⟨hQ, fun hc => Direction.noConfusion hc, fun _ => hP⟩
    · obtain ⟨x, hx, hP, hQ, rfl⟩ := mem_guarded_targets h
      exact ⟨hQ, fun hc => Direction.noConfusion hc, fun _ => hP⟩

/-- A deduplication step only produces the processed candidate or previously
kept ones. -/
theorem dedup_step_subset (e : ℚ) (acc : List Target) (t x : Target)
    (hx : x ∈ dedup_step e acc t) : x ∈ acc ∨ x = t := by
  unfold dedup_step at hx
  split at hx
  · rcases List.mem_append.mp hx with h | h
    · exact Or.inl h
    · exact Or.inr (List.mem_singleton.mp h)
  · split at hx
    · rcases List.mem_append.mp hx with h | h
      · exact Or.inl (List.mem_of_mem_erase h)
      · exact Or.inr (List.mem_singleton.mp h)
    · exact Or.inl hx

/-- The deduplication pass keeps only gathered candidates. -/
theorem dedup_fold_subset (e : ℚ) :
    ∀ (l acc : List Target), ∀ x ∈ l.foldl (dedup_step e) acc, x ∈ acc ∨ x ∈ l := by
  intro l
  induction l with
  | nil => intro acc x hx; exact Or.inl hx
  | cons a l ih =>
    intro acc x hx
    rw [List.foldl_cons] at hx
    rcases ih (dedup_step e acc a) x hx with h | h
    · rcases dedup_step_subset e acc a x h with h2 | h2
      · exact Or.inl h2
      · exact Or.inr (h2 ▸ List.mem_cons_self a l)
    · exact Or.inr (List.mem_cons_of_mem a h)

/-- `dedup_targets` output is a subset of its input. -/
theorem dedup_targets_subset (e : ℚ) (targets : List Target) :
    ∀ x ∈ dedup_targets e targets, x ∈ targets := by
  intro x hx
  rcases dedup_fold_subset e targets [] x hx with h | h
  · cases h
  · exact h

/-- The running maximum of `strongest_step` comes from the initial value or
the list. -/
theorem foldl_strongest_mem :
    ∀ (l : List Target) (acc : Option Target) (t : Target),
      l.foldl strongest_step acc = some t → acc = some t ∨ t ∈ l := by
  intro l
  induction l with
  | nil => intro acc t h; exact Or.inl h
  | cons a l ih =>
    intro acc t h
    rw [List.foldl_cons] at h
    rcases ih (strongest_step acc a) t h with h2 | h2
    · unfold strongest_step at h2
      split at h2
      · injection h2 with h3
        subst h3
        exact Or.inr (List.mem_cons_self a l)
      · split at h2
        · injection h2 with h3
          subst h3
          exact Or.inr (List.mem_cons_self a l)
        · exact Or.inl h2
    · exact Or.inr (List.mem_cons_of_mem a h2)

/-- Python's first-maximum pick is an element of the bucket. -/
theorem strongest_first_mem {l : List Target} {t : Target}
    (h : strongest_first l = some t) : t ∈ l := by
  rcases foldl_strongest_mem l none t h with h2 | h2
  · cases h2
  · exact h2

/-- The bucket phase keeps the selection duplicate-free and inside the
survivor list (each pick's ratio lies in a strictly later range than all
previous picks). -/
theorem bucket_phase_nodup_subset (unique_targets : List Target) (max_levels : ℕ) :
    ∀ (buckets : List (ℚ × ℚ)) (sel : List Target) (flag : Bool) (b : ℚ),
      sel.Nodup → (∀ x ∈ sel, x ∈ unique_targets) → (∀ x ∈ sel, x.rr_ratio < b) →
      bucketChain b buckets →
      (bucket_phase unique_targets max_levels buckets sel flag).Nodup ∧
        ∀ x ∈ bucket_phase unique_targets max_levels buckets sel flag,
          x ∈ unique_targets := by
  intro buckets
  induction buckets with
  | nil =>
    intro sel flag b h1 h2 _ _
    simp only [bucket_phase]
    exact ⟨h1, h2⟩
  | cons bk rest ih =>
    intro sel flag b h1 h2 h3 hchain
    obtain ⟨lo, hi⟩ := bk
    obtain ⟨hble, hlohi, hchain2⟩ := hchain
    cases flag with
    | true =>
      simp only [bucket_phase, if_pos]
      exact ⟨h1, h2⟩
    | false =>
      simp only [bucket_phase, Bool.false_eq_true, if_neg, not_false_iff]
      cases hsf : strongest_first (unique_targets.filter fun t =>
          decide (lo ≤ t.rr_ratio ∧ t.rr_ratio < hi)) with
      | none =>
        exact ih sel _ hi h1 h2
          (fun x hx => lt_trans (lt_of_lt_of_le (h3 x hx) hble) hlohi) hchain2
      | some best =>
        have hbm := strongest_first_mem hsf
        have hmem := List.mem_filter.mp hbm
        have hcond := of_decide_eq_true hmem.2
        apply ih (sel ++ [best]) _ hi
        · rw [List.nodup_append]
          refine ⟨h1, List.nodup_singleton _, ?_⟩
          intro x hx hxb
          rw [List.mem_singleton] at hxb
          subst hxb
          have : x.rr_ratio < lo := lt_of_lt_of_le (h3 x hx) hble
          exact absurd hcond.1 (not_le.mpr this)
        · intro x hx
          rcases List.mem_append.mp hx with h | h
          · exact h2 x h
          · rw [List.mem_singleton] at h
            exact h ▸ hmem.1
        · intro x hx
          rcases List.mem_append.mp hx with h | h
          · exact lt_trans (lt_of_lt_of_le (h3 x h) hble) hlohi
          · rw [List.mem_singleton] at h
            exact h ▸ hcond.2
        · exact hchain2

/-- The top-up loop only appends survivors. -/
theorem append_phase_subset (unique_targets : List Target) (max_levels : ℕ) :
    ∀ (fuel : ℕ) (sel : List Target), (∀ x ∈ sel, x ∈ unique_targets) →
      ∀ x ∈ append_phase unique_targets max_levels fuel sel, x ∈ unique_targets := by
  intro fuel
  induction fuel with
  | zero => intro sel h x hx; exact h x hx
  | succ fuel ih =>
    intro sel h x hx
    unfold append_phase at hx
    by_cases hcond : sel.length < max_levels ∧ sel.length < unique_targets.length
    · rw [if_pos hcond] at hx
      cases hfind : unique_targets.find? (fun t => decide (t ∉ sel)) with
      | none => rw [hfind] at hx; exact h x hx
      | some t =>
        rw [hfind] at hx
        refine ih (sel ++ [t]) ?_ x hx
        intro y hy
        rcases List.mem_append.mp hy with h2 | h2
        · exact h y h2
        · rw [List.mem_singleton] at h2
          exact h2 ▸ List.mem_of_find?_eq_some hfind
    · rw [if_neg hcond] at hx
      exact h x hx

/-- The selection stage returns only survivors. -/
theorem select_targets_subset (unique_targets : List Target) (max_levels : ℕ) :
    ∀ x ∈ select_targets unique_targets max_levels, x ∈ unique_targets := by
  intro x hx
  unfold select_targets at hx
  have hchain : bucketChain 0 rr_buckets := by
    refine ⟨by norm_num, by norm_num, by norm_num, by norm_num, by norm_num, by norm_num, trivial⟩
  have hb := bucket_phase_nodup_subset unique_targets max_levels rr_buckets [] false 0
    List.nodup_nil (by intro y hy; cases hy) (by intro y hy; cases hy) hchain
  exact append_phase_subset unique_targets max_levels max_levels _ hb.2 x hx

/-- C2 (amended, requiring `entry_price ≠ stop_loss` so that the risk is
nonzero): every returned take-profit target has `rr_ratio ≥ 1.5`; for longs
all returned prices strictly exceed the entry and for shorts they are
strictly below it; the returned list is ascending in `rr_ratio` and has at
most `max_levels` elements. -/
theorem C2_take_profit_postcondition (entry_price stop_loss : ℚ)
    (direction : Direction) (df : List Candle) (max_levels : ℕ)
    (hne : entry_price ≠ stop_loss) :
    (∀ t ∈ calculate_dynamic_take_profits entry_price stop_loss direction df max_levels,
        (3 : ℚ)/2 ≤ t.rr_ratio ∧
          (direction = .long → entry_price < t.price) ∧
          (direction = .short → t.price < entry_price)) ∧
      (calculate_dynamic_take_profits entry_price stop_loss direction df
          max_levels).Pairwise (fun a b => a.rr_ratio ≤ b.rr_ratio) ∧
      (calculate_dynamic_take_profits entry_price stop_loss direction df
          max_levels).length ≤ max_levels := by
  have hrisk : 0 < |entry_price - stop_loss| := abs_pos.mpr (sub_ne_zero.mpr hne)
  unfold calculate_dynamic_take_profits
  dsimp only
  split
  · -- fallback branch
    refine ⟨?_, ?_, ?_⟩
    · intro t ht
      have ht2 := List.mem_of_mem_take ht
      simp only [fallback_targets, List.mem_cons, List.mem_singleton] at ht2
      rcases ht2 with rfl | rfl | rfl | h
      · refine ⟨by norm_num, ?_, ?_⟩
        · intro hd; subst hd
          show entry_price < entry_price + |entry_price - stop_loss| * 2
          linarith
        · intro hd; subst hd
          show entry_price - |entry_price - stop_loss| * 2 < entry_price
          linarith
      · refine ⟨by norm_num, ?_, ?_⟩
        · intro hd; subst hd
          show entry_price < entry_price + |entry_price - stop_loss| * 3
          linarith
        · intro hd; subst hd
          show entry_price - |entry_price - stop_loss| * 3 < entry_price
          linarith
      · refine ⟨by norm_num, ?_, ?_⟩
        · intro hd; subst hd
          show entry_price < entry_price + |entry_price - stop_loss| * 4
          linarith
        · intro hd; subst hd
          show entry_price - |entry_price - stop_loss| * 4 < entry_price
          linarith
      · cases h
    · apply List.Pairwise.sublist (List.take_sublist _ _)
      simp only [fallback_targets]
      refine List.Pairwise.cons ?_ (List.Pairwise.cons ?_ (List.pairwise_singleton _ _))
      · intro b hb
        simp only [List.mem_cons, List.mem_singleton] at hb
        rcases hb with rfl | rfl | h
        · norm_num
        · norm_num
        · cases h
      · intro b hb
        rw [List.mem_singleton] at hb
        subst hb
        norm_num
    · exact List.length_take_le _ _
  · -- structural branch
    refine ⟨?_, ?_, ?_⟩
    · intro t ht
      have ht2 := (mem_insertionSort rrLe).mp (List.mem_of_mem_take ht)
      have ht3 := select_targets_subset _ _ _ ht2
      have ht4 := (mem_insertionSort lexRrStrength).mp ht3
      have ht5 := dedup_targets_subset _ _ _ ht4
      exact potential_targets_ok entry_price stop_loss direction df t ht5
    · apply List.Pairwise.sublist (List.take_sublist _ _)
      exact List.sorted_insertionSort rrLe _
    · exact List.length_take_le _ _

/-- Counterexample for C2 as stated: with `entry_price = stop_loss = 1000`
(zero risk), direction short and no candles, the fallback targets all equal
the entry price, so no returned price is strictly below the entry. -/
theorem C2_counterexample :
    ¬ (∀ t ∈ calculate_dynamic_take_profits 1000 1000 .short [] 3,
        t.price < 1000) := by
  decide

/-! ### Selection-stage lemmas (C5) -/

/-- `find?` returns the head of the filtered list. -/
theorem find?_eq_head_filter {α : Type} (p : α → Bool) :
    ∀ l : List α, l.find? p = (l.filter p).head? := by
  intro l
  induction l with
  | nil => rfl
  | cons a l ih =>
    cases h : p a with
    | true =>
      rw [List.find?_cons, h, List.filter_cons_of_pos h]
      rfl
    | false =>
      rw [List.find?_cons, h, List.filter_cons_of_neg (by simp [h]), ih]

/-- The top-up loop appends, in survivor order, exactly the unselected
survivors, until `max_levels` are selected. -/
theorem append_phase_eq (unique_targets : List Target) (max_levels : ℕ)
    (hu : unique_targets.Nodup) :
    ∀ (fuel : ℕ) (sel : List Target), sel.Nodup →
      (∀ x ∈ sel, x ∈ unique_targets) → max_levels ≤ sel.length + fuel →
      append_phase unique_targets max_levels fuel sel
        = sel ++ (unique_targets.filter fun t => decide (t ∉ sel)).take
            (max_levels - sel.length) := by
  intro fuel
  induction fuel with
  | zero =>
    intro sel hnd hsub hle
    have h0 : max_levels - sel.length = 0 := by omega
    rw [h0, List.take_zero, List.append_nil]
    rfl
  | succ fuel ih =>
    intro sel hnd hsub hle
    by_cases h1 : sel.length < max_levels
    · by_cases h2 : sel.length < unique_targets.length
      · have hex : ∃ x ∈ unique_targets, x ∉ sel := by
          by_contra hc
          push_neg at hc
          have hsub2 : unique_targets ⊆ sel := fun x hx => hc x hx
          have := (hu.subperm hsub2).length_le
          omega
        have hfilterne : (unique_targets.filter fun t => decide (t ∉ sel)) ≠ [] := by
          intro hnil
          obtain ⟨x, hx1, hx2⟩ := hex
          have hx3 := List.filter_eq_nil_iff.mp hnil x hx1
          simp only [decide_eq_true_eq] at hx3
          exact hx3 hx2
        obtain ⟨t, L, hfil⟩ := List.exists_cons_of_ne_nil hfilterne
        have hfind : unique_targets.find? (fun t => decide (t ∉ sel)) = some t := by
          rw [find?_eq_head_filter, hfil]
          rfl
        have hred : append_phase unique_targets max_levels (fuel + 1) sel
            = append_phase unique_targets max_levels fuel (sel ++ [t]) := by
          show (if sel.length < max_levels ∧ sel.length < unique_targets.length then
              match unique_targets.find? (fun t => decide (t ∉ sel)) with
              | some t => append_phase unique_targets max_levels fuel (sel ++ [t])
              | none => sel
            else sel) = append_phase unique_targets max_levels fuel (sel ++ [t])
          rw [if_pos ⟨h1, h2⟩, hfind]
        have htmem := List.mem_filter.mp (hfil ▸ List.mem_cons_self t L)
        have htu : t ∈ unique_targets := htmem.1
        have hts : t ∉ sel := of_decide_eq_true htmem.2
        have hstep := ih (sel ++ [t])
          (by
            rw [List.nodup_append]
            exact ⟨hnd, List.nodup_singleton _, by
              intro x hx hxt
              rw [List.mem_singleton] at hxt
              exact hts (hxt ▸ hx)⟩)
          (by
            intro x hx
            rcases List.mem_append.mp hx with h | h
            · exact hsub x h
            · rw [List.mem_singleton] at h
              exact h ▸ htu)
          (by simp only [List.length_append, List.length_singleton]; omega)
        rw [hred, hstep]
        have hnewfilter :
            (unique_targets.filter fun x => decide (x ∉ sel ++ [t])) = L := by
          have hsplit :
              (unique_targets.filter fun x => decide (x ∉ sel ++ [t]))
                = (unique_targets.filter fun x => decide (x ∉ sel)).filter
                    (fun x => decide (x ≠ t)) := by
            rw [List.filter_filter]
            apply List.filter_congr
            intro x _
            by_cases hxs : x ∈ sel
            · simp [hxs, List.mem_append]
            · by_cases hxt : x = t
              · simp [hxs, hxt, List.mem_append]
              · simp [hxs, hxt, List.mem_append]
          rw [hsplit, hfil]
          have hndtL : (t :: L).Nodup := hfil ▸ (hu.filter _)
          have htL : t ∉ L := (List.nodup_cons.mp hndtL).1
          rw [List.filter_cons_of_neg (by simp)]
          apply List.filter_eq_self.mpr
          intro x hx
          simp only [decide_eq_true_eq]
          intro hxt
          exact htL (hxt ▸ hx)
        rw [hnewfilter, hfil]
        have hktake : max_levels - sel.length
            = (max_levels - (sel ++ [t]).length) + 1 := by
          simp only [List.length_append, List.length_singleton]
          omega
        rw [hktake, List.take_succ_cons, List.append_assoc]
        rfl
      · have hstop : append_phase unique_targets max_levels (fuel + 1) sel = sel := by
          show (if sel.length < max_levels ∧ sel.length < unique_targets.length then
              match unique_targets.find? (fun t => decide (t ∉ sel)) with
              | some t => append_phase unique_targets max_levels fuel (sel ++ [t])
              | none => sel
            else sel) = sel
          rw [if_neg (by omega)]
        rw [hstop]
        have hsub2 : unique_targets ⊆ sel := by
          intro x hx
          by_contra hxs
          have hlen : (sel ++ [x]).Nodup := by
            rw [List.nodup_append]
            exact ⟨hnd, List.nodup_singleton _, by
              intro y hy hyx
              rw [List.mem_singleton] at hyx
              exact hxs (hyx ▸ hy)⟩
          have hsubx : (sel ++ [x]) ⊆ unique_targets := by
            intro y hy
            rcases List.mem_append.mp hy with h | h
            · exact hsub y h
            · rw [List.mem_singleton] at h
              exact h ▸ hx
          have := (hlen.subperm hsubx).length_le
          simp only [List.length_append, List.length_singleton] at this
          omega
        have hfil0 : (unique_targets.filter fun t => decide (t ∉ sel)) = [] := by
          apply List.filter_eq_nil_iff.mpr
          intro a ha
          simp only [decide_eq_true_eq, not_not]
          exact hsub2 ha
        rw [hfil0]
        simp
    · have hstop : append_phase unique_targets max_levels (fuel + 1) sel = sel := by
        show (if sel.length < max_levels ∧ sel.length < unique_targets.length then
            match unique_targets.find? (fun t => decide (t ∉ sel)) with
            | some t => append_phase unique_targets max_levels fuel (sel ++ [t])
            | none => sel
          else sel) = sel
        rw [if_neg (by omega)]
      rw [hstop]
      have h0 : max_levels - sel.length = 0 := by omega
      rw [h0]
      simp

/-- Under the hypothesis that all survivor ratios are below 100, the code's
buckets coincide with the claimed buckets. -/
theorem bucket_phase_eq_claimed (survivors : List Target) (max_levels : ℕ)
    (hlt : ∀ t ∈ survivors, t.rr_ratio < 100) :
    bucket_phase survivors max_levels rr_buckets [] false
      = bucket_phase_claimed survivors max_levels rr_buckets_claimed [] false := by
  have hfar : (survivors.filter fun t => decide ((4 : ℚ) ≤ t.rr_ratio ∧ t.rr_ratio < 100))
      = survivors.filter fun t => decide ((4 : ℚ) ≤ t.rr_ratio) := by
    apply List.filter_congr
    intro x hx
    have h := hlt x hx
    simp [h]
  simp only [rr_buckets, rr_buckets_claimed, bucket_phase, bucket_phase_claimed]
  rw [hfar]

/-- C5 (amended: the code's far bucket is `[4.0, 100.0)`, not `[4.0, ∞)`;
under the additional assumptions that the deduplicated survivors are
duplicate-free and all have `rr_ratio < 100`, the claimed selection behaviour
holds exactly): buckets near `[1.5,2.5)`, mid `[2.5,4.0)`, far; one strongest
pick per non-empty bucket in bucket order until `max_levels`; then remaining
unselected survivors in post-sort order. -/
theorem C5_selection_matches_claim (survivors : List Target) (max_levels : ℕ)
    (hnd : survivors.Nodup) (hlt : ∀ t ∈ survivors, t.rr_ratio < 100) :
    select_targets survivors max_levels
      = select_targets_claimed survivors max_levels := by
  unfold select_targets select_targets_claimed
  rw [← bucket_phase_eq_claimed survivors max_levels hlt]
  have hchain : bucketChain 0 rr_buckets := by
    refine ⟨by norm_num, by norm_num, by norm_num, by norm_num, by norm_num,
      by norm_num, trivial⟩
  have hb := bucket_phase_nodup_subset survivors max_levels rr_buckets [] false 0
    List.nodup_nil (by intro y hy; cases hy) (by intro y hy; cases hy) hchain
  exact append_phase_eq survivors max_levels hnd max_levels _ hb.1 hb.2
    (Nat.le_add_left _ _)

/-- Counterexample for C5 as stated: on `c5survivors` the survivor with
`rr_ratio = 150` is in the claim's far bucket but in none of the code's
buckets, so the code selects the weaker far survivor instead. -/
theorem C5_counterexample :
    select_targets c5survivors 3 ≠ select_targets_claimed c5survivors 3 := by
  decide

/-- Witness for C5: a duplicate-free survivor list with all ratios below 100
on which code and claim agree. -/
theorem C5_witness :
    select_targets c5witnessSurvivors 3 = select_targets_claimed c5witnessSurvivors 3 :=
  C5_selection_matches_claim c5witnessSurvivors 3 (by decide) (by decide)

/-! ### Deduplication lemmas (C7) -/

/-- 0.5%-closeness is symmetric. -/
theorem close_prices_symm (e : ℚ) (a b : Target) :
    close_prices e a b ↔ close_prices e b a := by
  unfold close_prices
  rw [abs_sub_comm]

/-- 0.5%-closeness is reflexive. -/
theorem close_prices_refl (e : ℚ) (a : Target) : close_prices e a a := by
  unfold close_prices
  simp

/-- A pairwise-separated list has no duplicates. -/
theorem pairwise_nonclose_nodup (e : ℚ) (l : List Target)
    (h : l.Pairwise (fun a b => ¬ close_prices e a b)) : l.Nodup := by
  refine h.imp ?_
  intro a b hnab heq
  exact hnab (heq ▸ close_prices_refl e a)

/-- Folding the deduplication step preserves pairwise separation, provided
closeness on the candidate pool is Euclidean (no candidate is close to two
mutually separated candidates). -/
theorem dedup_fold_pairwise (e : ℚ) (cands : List Target)
    (heuc : ∀ a ∈ cands, ∀ b ∈ cands, ∀ c ∈ cands,
      close_prices e a b → close_prices e a c → close_prices e b c) :
    ∀ (l acc : List Target), (∀ x ∈ acc, x ∈ cands) → (∀ x ∈ l, x ∈ cands) →
      acc.Pairwise (fun a b => ¬ close_prices e a b) →
      (l.foldl (dedup_step e) acc).Pairwise (fun a b => ¬ close_prices e a b) := by
  intro l
  induction l with
  | nil => intro acc _ _ h; exact h
  | cons t rest ih =>
    intro acc hacc hl hpw
    rw [List.foldl_cons]
    apply ih (dedup_step e acc t)
    · intro x hx
      rcases dedup_step_subset e acc t x hx with h | h
      · exact hacc x h
      · exact h ▸ hl t (List.mem_cons_self t rest)
    · intro x hx
      exact hl x (List.mem_cons_of_mem t hx)
    · cases hfind : acc.find? (fun u => decide (close_prices e t u)) with
      | none =>
        have hred : dedup_step e acc t = acc ++ [t] := by
          unfold dedup_step
          rw [hfind]
        rw [hred, List.pairwise_append]
        refine ⟨hpw, List.pairwise_singleton _ _, ?_⟩
        intro a ha b hb
        rw [List.mem_singleton] at hb
        rw [hb]
        intro hclose
        have hta := (close_prices_symm e a t).mp hclose
        have := List.find?_eq_none.mp hfind a ha
        exact this (decide_eq_true hta)
      | some u =>
        have humem : u ∈ acc := List.mem_of_find?_eq_some hfind
        have htu : close_prices e t u := by
          have h2 := List.find?_some hfind
          simpa using h2
        by_cases hs : u.strength < t.strength
        · have hred : dedup_step e acc t = acc.erase u ++ [t] := by
            unfold dedup_step
            rw [hfind]
            show (if u.strength < t.strength then acc.erase u ++ [t] else acc)
              = acc.erase u ++ [t]
            rw [if_pos hs]
          rw [hred, List.pairwise_append]
          have hperase : (acc.erase u).Pairwise (fun a b => ¬ close_prices e a b) :=
            List.Pairwise.sublist (List.erase_sublist u acc) hpw
          refine ⟨hperase, List.pairwise_singleton _ _, ?_⟩
          intro a ha b hb
          rw [List.mem_singleton] at hb
          rw [hb]
          intro hclose
          have hndacc : acc.Nodup := pairwise_nonclose_nodup e acc hpw
          have hane : a ≠ u := ((List.Nodup.mem_erase_iff hndacc).mp ha).1
          have hamem : a ∈ acc := List.mem_of_mem_erase ha
          have hta : close_prices e t a := (close_prices_symm e a t).mp hclose
          have hau : close_prices e a u :=
            heuc t (hl t (List.mem_cons_self t rest)) a (hacc a hamem) u
              (hacc u humem) hta htu
          have hsymm : Symmetric (fun a b : Target => ¬ close_prices e a b) := by
            intro x y hxy hyx
            exact hxy ((close_prices_symm e x y).mpr hyx)
          exact (hpw.forall hsymm hamem humem hane) hau
        · have hred : dedup_step e acc t = acc := by
            unfold dedup_step
            rw [hfind]
            show (if u.strength < t.strength then acc.erase u ++ [t] else acc) = acc
            rw [if_neg hs]
          rw [hred]
          exact hpw

/-- C7 (amended: the pairwise-separation postcondition needs the extra
hypothesis that 0.5%-closeness is Euclidean on the gathered candidates — no
candidate within 0.5% of two mutually separated candidates; without it the
`break` after the first close match can leave two survivors within 0.5%):
under that hypothesis, no two candidates surviving deduplication have prices
within 0.5% of each other relative to entry. -/
theorem C7_dedup_separation (entry_price : ℚ) (cands : List Target)
    (heuc : ∀ a ∈ cands, ∀ b ∈ cands, ∀ c ∈ cands,
      close_prices entry_price a b → close_prices entry_price a c →
        close_prices entry_price b c) :
    (dedup_targets entry_price cands).Pairwise
      (fun a b => ¬ close_prices entry_price a b) := by
  unfold dedup_targets
  exact dedup_fold_pairwise entry_price cands heuc cands []
    (by intro x hx; cases hx) (fun x hx => hx) List.Pairwise.nil

/-- Counterexample for C7 as stated: on `c7cands` the deduplication keeps two
targets whose prices are within 0.5% of each other relative to entry. -/
theorem C7_counterexample :
    ∃ a ∈ dedup_targets 100 c7cands, ∃ b ∈ dedup_targets 100 c7cands,
      a ≠ b ∧ close_prices 100 a b := by
  decide

/-- Witness for C7: on candidates with separated closeness classes the
survivors are pairwise more than 0.5% apart. -/
theorem C7_witness :
    (dedup_targets 100 c7witnessCands).Pairwise
      (fun a b => ¬ close_prices 100 a b) :=
  C7_dedup_separation 100 c7witnessCands (by decide)

/-! ### Backtest engine theorems -/

/-- C3 (amended: the appended equity is the post-trade capital PLUS the
trade's net pnl, not the post-trade capital): closing a position increases
the capital by exactly the exit notional (position size times the
slippage-adjusted exit price), appends exactly one closed-trade record, and
appends exactly one equity point `{exit_time, capital_after + pnl}`. -/
theorem C3_close_position_accounting (cfg : BTConfig) (st : BTState)
    (position : BTPosition) (einfo : ExitInfo) :
    (close_position cfg st position einfo).capital
        = st.capital + position.position_size *
            apply_slippage cfg einfo.exit_price position.direction true ∧
      (close_position cfg st position einfo).closed_trades.length
        = st.closed_trades.length + 1 ∧
      (close_position cfg st position einfo).equity_curve
        = st.equity_curve ++
            [⟨einfo.exit_time,
              (close_position cfg st position einfo).capital
                + trade_pnl cfg position einfo⟩] := by
  refine ⟨rfl, ?_, rfl⟩
  simp [close_position]

/-- Counterexample for C3 as stated: with zero friction, a winning one-unit
long from 100 exited at 110 appends an equity point of 120 while the capital
after the trade is 110. -/
theorem C3_counterexample :
    ((close_position c3cfg c3state c3position c3einfo).equity_curve.getLast?).map
        (fun e => e.equity)
      ≠ some (close_position c3cfg c3state c3position c3einfo).capital := by
  decide

/-- C10: a signal with fewer than two candles at or after its generation
time is skipped entirely — the engine state (capital, closed trades, equity
curve) is unchanged — even when the entry candle exists as the last candle
of the series. -/
theorem C10_short_series_skipped (cfg : BTConfig)
    (ohlcv_data : List ((String × String) × List Candle)) (st : BTState)
    (signal : BTSignal) (df : List Candle)
    (hdf : ohlcv_data.lookup (signal.symbol, signal.timeframe) = some df)
    (hlen : (df_after_of signal df).length < 2) :
    process_signal cfg ohlcv_data st signal = st := by
  unfold process_signal
  split
  · rfl
  · rename_i df2 heq
    rw [hdf] at heq
    injection heq with h2
    subst h2
    split
    · rfl
    · rename_i hcond
      exact absurd hlen hcond

/-- Witness for C10: a two-candle series with only the entry candle at or
after the signal time leaves the state untouched. -/
theorem C10_witness :
    process_signal defaultBTConfig btShortData ⟨10000, [], []⟩ btWitnessSignal
      = ⟨10000, [], []⟩ :=
  C10_short_series_skipped defaultBTConfig btShortData ⟨10000, [], []⟩
    btWitnessSignal [⟨-10, 100, 101, 99, 100, 1⟩, ⟨5, 100, 101, 99, 100, 1⟩]
    (by decide) (by decide)

/-- C8: the backtest recovers from per-signal failures and degenerate runs:
a signal with a missing series is skipped with the state unchanged; a signal
whose total entry cost exceeds the current capital is skipped with the state
unchanged; a run with no signals returns `total_trades = 0` and
`total_return_percent = 0`; and any run in which no trade closes returns
`total_trades = 0` and `total_return_percent = 0`. -/
theorem C8_run_robustness :
    (∀ (cfg : BTConfig) (ohlcv_data : List ((String × String) × List Candle))
        (st : BTState) (signal : BTSignal),
        ohlcv_data.lookup (signal.symbol, signal.timeframe) = none →
        process_signal cfg ohlcv_data st signal = st) ∧
    (∀ (cfg : BTConfig) (ohlcv_data : List ((String × String) × List Candle))
        (st : BTState) (signal : BTSignal),
        st.capital < total_entry_cost_of cfg signal →
        process_signal cfg ohlcv_data st signal = st) ∧
    (∀ (cfg : BTConfig) (ohlcv_data : List ((String × String) × List Candle)),
        (run_backtest cfg [] ohlcv_data).total_trades = 0 ∧
          (run_backtest cfg [] ohlcv_data).total_return_percent = 0) ∧
    (∀ (cfg : BTConfig) (signals : List BTSignal)
        (ohlcv_data : List ((String × String) × List Candle)),
        (run_final_state cfg signals ohlcv_data).closed_trades = [] →
        (run_backtest cfg signals ohlcv_data).total_trades = 0 ∧
          (run_backtest cfg signals ohlcv_data).total_return_percent = 0) := by
  refine ⟨?_, ?_, ?_, ?_⟩
  · intro cfg ohlcv_data st signal hnone
    unfold process_signal
    split
    · rfl
    · rename_i df2 heq
      rw [hnone] at heq
      cases heq
  · intro cfg ohlcv_data st signal hcap
    unfold process_signal
    split
    · rfl
    · rename_i df2 heq
      by_cases hlen : (df_after_of signal df2).length < 2
      · rw [if_pos hlen]
      · rw [if_neg hlen, if_pos hcap]
  · intro cfg ohlcv_data
    exact ⟨rfl, rfl⟩
  · intro cfg signals ohlcv_data h
    unfold run_backtest calculate_results
    rw [h]
    exact ⟨rfl, rfl⟩

/-! ### Exit-walk lemmas (C4) -/

/-- `_check_exit` fires exactly on the claim's per-direction conditions. -/
theorem check_exit_none_iff (position : BTPosition) (candle : Candle) :
    check_exit position candle = none ↔ ¬ fires position candle := by
  unfold check_exit fires
  cases hd : position.direction with
  | long =>
    rw [if_pos rfl]
    by_cases h1 : candle.low ≤ position.stop_loss
    · simp [h1]
    · by_cases h2 : position.take_profit ≤ candle.high
      · simp [h1, h2]
      · simp [h1, h2]
  | short =>
    rw [if_neg (fun hc => Direction.noConfusion hc)]
    by_cases h1 : position.stop_loss ≤ candle.high
    · simp [h1]
    · by_cases h2 : candle.low ≤ position.take_profit
      · simp [h1, h2]
      · simp [h1, h2]

/-- At a firing candle, `_check_exit` returns exactly the claim's exit
information (stop checked before take profit). -/
theorem check_exit_eq_claimed (position : BTPosition) (candle : Candle)
    (h : fires position candle) :
    check_exit position candle = some (claimed_exit_info position candle) := by
  unfold fires at h
  unfold check_exit claimed_exit_info
  cases hd : position.direction with
  | long =>
    rw [hd] at h
    rw [if_pos rfl] at h
    rw [if_pos rfl]
    dsimp only
    by_cases h1 : candle.low ≤ position.stop_loss
    · rw [if_pos h1, if_pos h1]
    · rcases h with h1' | h2
      · exact absurd h1' h1
      · rw [if_neg h1, if_pos h2, if_neg h1]
  | short =>
    rw [hd] at h
    rw [if_neg (fun hc => Direction.noConfusion hc)] at h
    rw [if_neg (fun hc => Direction.noConfusion hc)]
    dsimp only
    by_cases h1 : position.stop_loss ≤ candle.high
    · rw [if_pos h1, if_pos h1]
    · rcases h with h1' | h2
      · exact absurd h1' h1
      · rw [if_neg h1, if_pos h2, if_neg h1]

/-- When no candle fires, the walk finds no exit. -/
theorem first_exit_of_none (position : BTPosition) :
    ∀ candles : List Candle, (∀ c ∈ candles, ¬ fires position c) →
      first_exit position candles = none := by
  intro candles
  induction candles with
  | nil => intro _; rfl
  | cons a rest ih =>
    intro h
    unfold first_exit
    rw [(check_exit_none_iff position a).mpr (h a (List.mem_cons_self a rest))]
    exact ih (fun c hc => h c (List.mem_cons_of_mem a hc))

/-- The walk stops at the first firing candle. -/
theorem first_exit_of_find? (position : BTPosition) :
    ∀ (candles : List Candle) (c : Candle),
      candles.find? (fun c => decide (fires position c)) = some c →
      first_exit position candles = check_exit position c := by
  intro candles
  induction candles with
  | nil => intro c h; cases h
  | cons a rest ih =>
    intro c h
    rw [List.find?_cons] at h
    by_cases hf : fires position a
    · rw [show decide (fires position a) = true from decide_eq_true hf] at h
      dsimp only at h
      injection h with h2
      subst h2
      unfold first_exit
      cases hce : check_exit position a with
      | none => exact absurd hf ((check_exit_none_iff position a).mp hce)
      | some einfo => rfl
    · rw [show decide (fires position a) = false from decide_eq_false hf] at h
      dsimp only at h
      unfold first_exit
      rw [(check_exit_none_iff position a).mpr hf]
      exact ih c h

/-- C4: an opened position exits at the first subsequent candle where an
exit condition fires, with the stop checked before the take profit inside
each candle; if no subsequent candle fires, the position contributes no
closed-trade record and no equity-curve point. -/
theorem C4_exit_at_first_firing_candle (cfg : BTConfig)
    (ohlcv_data : List ((String × String) × List Candle)) (st : BTState)
    (signal : BTSignal) (df : List Candle)
    (hdf : ohlcv_data.lookup (signal.symbol, signal.timeframe) = some df)
    (hlen : ¬ (df_after_of signal df).length < 2)
    (hcap : ¬ st.capital < total_entry_cost_of cfg signal) :
    (((df_after_of signal df).drop 1).find?
          (fun c => decide (fires (position_of cfg signal df) c)) = none →
        (process_signal cfg ohlcv_data st signal).closed_trades = st.closed_trades ∧
          (process_signal cfg ohlcv_data st signal).equity_curve = st.equity_curve) ∧
    (∀ c : Candle,
        ((df_after_of signal df).drop 1).find?
            (fun c => decide (fires (position_of cfg signal df) c)) = some c →
        (process_signal cfg ohlcv_data st signal).closed_trades
            = st.closed_trades ++
                [trade_record cfg (position_of cfg signal df)
                  (claimed_exit_info (position_of cfg signal df) c)] ∧
          (process_signal cfg ohlcv_data st signal).equity_curve.length
            = st.equity_curve.length + 1 ∧
          (claimed_exit_info (position_of cfg signal df) c).exit_time
            = c.timestamp ∧
          (claimed_exit_info (position_of cfg signal df) c).exit_reason
            = claimed_exit_reason (position_of cfg signal df) c) := by
  have hproc : process_signal cfg ohlcv_data st signal
      = (match first_exit (position_of cfg signal df)
            ((df_after_of signal df).drop 1) with
         | some einfo =>
            close_position cfg
              { st with capital := st.capital - total_entry_cost_of cfg signal }
              (position_of cfg signal df) einfo
         | none => { st with capital := st.capital - total_entry_cost_of cfg signal }) := by
    unfold process_signal
    rw [hdf]
    dsimp only
    rw [if_neg hlen, if_neg hcap]
  constructor
  · intro hnone
    have hfe : first_exit (position_of cfg signal df)
        ((df_after_of signal df).drop 1) = none := by
      apply first_exit_of_none
      intro c hc
      have := List.find?_eq_none.mp hnone c hc
      simpa using this
    rw [hproc, hfe]
    exact ⟨rfl, rfl⟩
  · intro c hsome
    have hfires : fires (position_of cfg signal df) c := by
      have := List.find?_some hsome
      simpa using this
    have hfe := first_exit_of_find? (position_of cfg signal df) _ c hsome
    rw [check_exit_eq_claimed _ _ hfires] at hfe
    rw [hproc, hfe]
    refine ⟨rfl, ?_, ?_, ?_⟩
    · simp [close_position]
    · unfold claimed_exit_info
      split
      · split <;> rfl
      · split <;> rfl
    · unfold claimed_exit_info claimed_exit_reason
      split
      · split <;> rfl
      · split <;> rfl

/-- Witness for C4: on the witness data the long position closes at the
second candle with reason take_profit. -/
theorem C4_witness :
    (process_signal defaultBTConfig btWitnessData ⟨10000, [], []⟩
          btWitnessSignal).closed_trades
        = [] ++
            [trade_record defaultBTConfig
              (position_of defaultBTConfig btWitnessSignal btWitnessCandles)
              (claimed_exit_info
                (position_of defaultBTConfig btWitnessSignal btWitnessCandles)
                ⟨1, 105, 111, 104, 110, 1⟩)] ∧
      (process_signal defaultBTConfig btWitnessData ⟨10000, [], []⟩
            btWitnessSignal).equity_curve.length = ([] : List EquityPoint).length + 1 ∧
      (claimed_exit_info
          (position_of defaultBTConfig btWitnessSignal btWitnessCandles)
          ⟨1, 105, 111, 104, 110, 1⟩).exit_time = 1 ∧
      (claimed_exit_info
          (position_of defaultBTConfig btWitnessSignal btWitnessCandles)
          ⟨1, 105, 111, 104, 110, 1⟩).exit_reason
        = claimed_exit_reason
            (position_of defaultBTConfig btWitnessSignal btWitnessCandles)
            ⟨1, 105, 111, 104, 110, 1⟩ :=
  (C4_exit_at_first_firing_candle defaultBTConfig btWitnessData ⟨10000, [], []⟩
      btWitnessSignal btWitnessCandles (by decide) (by decide) (by decide)).2
    ⟨1, 105, 111, 104, 110, 1⟩ (by decide)

/-! ### Signal generator theorems (C9) -/

/-- With zero risk the first-target risk/reward is 0. -/
theorem risk_reward_zero_of_entry_eq_stop (entry_price stop_loss take_profit : ℚ)
    (heq : entry_price = stop_loss) :
    calculate_risk_reward entry_price stop_loss take_profit = 0 := by
  unfold calculate_risk_reward
  rw [heq, sub_self, abs_zero]
  simp

/-- A degenerate pattern (entry equals stop) generates no signal, for any
positive minimum risk/reward. -/
theorem gen_none_of_entry_eq_stop (cfg : GenConfig) (p : Pattern)
    (symbol timeframe : String) (df : List Candle)
    (hmin : 0 < cfg.min_risk_reward)
    (heq : fvg_entry_price p = fvg_stop_loss cfg p df) :
    generate_fvg_signal cfg p symbol timeframe df = none := by
  unfold generate_fvg_signal
  cases hc : fvg_take_profit_1 cfg p df with
  | none =>
    rfl
  | some tp1 =>
    dsimp only
    by_cases h0 : tp1 = 0
    · simp [h0]
    · rw [if_neg h0]
      split
      · rfl
      · rename_i hn
        rw [risk_reward_zero_of_entry_eq_stop _ _ _ heq] at hn
        exact absurd hmin hn

/-- A generated signal's entry and stop fields are the computed entry and
stop. -/
theorem gen_some_fields (cfg : GenConfig) (p : Pattern)
    (symbol timeframe : String) (df : List Candle) (s : GenSignal)
    (h : generate_fvg_signal cfg p symbol timeframe df = some s) :
    s.entry_price = fvg_entry_price p ∧ s.stop_loss = fvg_stop_loss cfg p df := by
  unfold generate_fvg_signal at h
  split at h
  · cases h
  · split at h
    · cases h
    · dsimp only at h
      split at h
      · cases h
      · injection h with h2
        subst h2
        exact ⟨rfl, rfl⟩

/-- C9: the generator emits no signal for a Fair Value Gap pattern when no
first take-profit target is obtainable (including a zero price, which is
falsy in the source) or when the first target's risk/reward is below
`min_risk_reward`; in particular, a pattern whose computed entry price
equals its stop loss (zero risk) yields `None`, so no signal in the
generator's output has entry equal to stop. -/
theorem C9_degenerate_signals_rejected :
    (∀ (cfg : GenConfig) (p : Pattern) (symbol timeframe : String) (df : List Candle),
        fvg_take_profit_1 cfg p df = none ∨ fvg_take_profit_1 cfg p df = some 0 →
        generate_fvg_signal cfg p symbol timeframe df = none) ∧
    (∀ (cfg : GenConfig) (p : Pattern) (symbol timeframe : String)
        (df : List Candle) (tp1 : ℚ),
        fvg_take_profit_1 cfg p df = some tp1 → tp1 ≠ 0 →
        calculate_risk_reward (fvg_entry_price p) (fvg_stop_loss cfg p df) tp1
            < cfg.min_risk_reward →
        generate_fvg_signal cfg p symbol timeframe df = none) ∧
    (∀ (cfg : GenConfig) (p : Pattern) (symbol timeframe : String) (df : List Candle),
        0 < cfg.min_risk_reward →
        fvg_entry_price p = fvg_stop_loss cfg p df →
        generate_fvg_signal cfg p symbol timeframe df = none) ∧
    (∀ (cfg : GenConfig) (patterns : List Pattern) (symbol timeframe : String)
        (df : List Candle) (s : GenSignal),
        0 < cfg.min_risk_reward →
        s ∈ generate_signals_from_patterns cfg patterns symbol timeframe df →
        s.entry_price ≠ s.stop_loss) := by
  refine ⟨?_, ?_, ?_, ?_⟩
  · intro cfg p symbol timeframe df h
    unfold generate_fvg_signal
    rcases h with h | h
    · rw [h]
    · rw [h]
      simp
  · intro cfg p symbol timeframe df tp1 h h0 hrr
    unfold generate_fvg_signal
    rw [h]
    show (if tp1 = 0 then none
      else
        if calculate_risk_reward (fvg_entry_price p) (fvg_stop_loss cfg p df) tp1
            < cfg.min_risk_reward then none
        else _) = none
    rw [if_neg h0, if_pos hrr]
  · exact gen_none_of_entry_eq_stop
  · intro cfg patterns symbol timeframe df s hmin hs hcontra
    obtain ⟨p, hp, hgen⟩ := List.mem_filterMap.mp hs
    by_cases hft : p.pattern_type = "fair_value_gap"
    · rw [if_pos hft] at hgen
      obtain ⟨he, hst⟩ := gen_some_fields cfg p symbol timeframe df s hgen
      have heq : fvg_entry_price p = fvg_stop_loss cfg p df := by
        rw [← he, ← hst]
        exact hcontra
      rw [gen_none_of_entry_eq_stop cfg p symbol timeframe df hmin heq] at hgen
      cases hgen
    · rw [if_neg hft] at hgen
      cases hgen

/-- Witness for C9: the degenerate flat pattern over a flat candle yields
entry = stop and no signal. -/
theorem C9_witness :
    generate_fvg_signal defaultGenConfig c9pattern "BTC/USDT" "1h" c9df = none :=
  C9_degenerate_signals_rejected.2.2.1 defaultGenConfig c9pattern "BTC/USDT" "1h"
    c9df (by decide) (by decide)

/-- Witness for C8: an oversized signal (entry cost above the capital) is
skipped with the state unchanged. -/
theorem C8_witness :
    process_signal defaultBTConfig btWitnessData ⟨10000, [], []⟩ btBigSignal
      = ⟨10000, [], []⟩ :=
  C8_run_robustness.2.1 defaultBTConfig btWitnessData ⟨10000, [], []⟩ btBigSignal
    (by decide)

/-- Witness for C2: a concrete instantiation with nonzero risk. -/
theorem C2_witness :
    (1000 : ℚ) ≠ 990 ∧
      ((∀ t ∈ calculate_dynamic_take_profits 1000 990 .short [] 3,
          (3 : ℚ)/2 ≤ t.rr_ratio ∧
            (Direction.short = .long → (1000 : ℚ) < t.price) ∧
            (Direction.short = .short → t.price < 1000)) ∧
        (calculate_dynamic_take_profits 1000 990 .short [] 3).Pairwise
          (fun a b => a.rr_ratio ≤ b.rr_ratio) ∧
        (calculate_dynamic_take_profits 1000 990 .short [] 3).length ≤ 3) :=
  ⟨by decide, C2_take_profit_postcondition 1000 990 .short [] 3 (by decide)⟩

end CryptoTrader
